/-
A verification development for the `ecij` zero-runtime CSS-in-JS extraction
plugin (src/index.ts).  Source text is modelled as `List Char`; JS `Map`s are
modelled as association lists where insertion conses in front and lookup
returns the first (i.e. most recent) binding, which matches every use of the
maps in the source (the source only ever calls `get`/`has`/`set`/`clear`).
The MD5 digest used by `hashText` is implemented in full.
-/
import Mathlib

set_option maxRecDepth 1000000

namespace Ecij

/-! ### MD5 (`createHash('md5')`), as used by `hashText` -/

def m32 (x : Nat) : Nat := x % 4294967296

def add32 (a b : Nat) : Nat := (a + b) % 4294967296

def not32 (x : Nat) : Nat := Nat.xor x 4294967295

def rotl32 (x s : Nat) : Nat :=
  Nat.lor (m32 (Nat.shiftLeft x s)) (Nat.shiftRight (m32 x) (32 - s))

/-- The 64 MD5 sine constants `K[i] = floor(2^32 * |sin(i+1)|)`. -/
def md5K : List Nat :=
  [0xd76aa478, 0xe8c7b756, 0x242070db, 0xc1bdceee,
   0xf57c0faf, 0x4787c62a, 0xa8304613, 0xfd469501,
   0x698098d8, 0x8b44f7af, 0xffff5bb1, 0x895cd7be,
   0x6b901122, 0xfd987193, 0xa679438e, 0x49b40821,
   0xf61e2562, 0xc040b340, 0x265e5a51, 0xe9b6c7aa,
   0xd62f105d, 0x02441453, 0xd8a1e681, 0xe7d3fbc8,
   0x21e1cde6, 0xc33707d6, 0xf4d50d87, 0x455a14ed,
   0xa9e3e905, 0xfcefa3f8, 0x676f02d9, 0x8d2a4c8a,
   0xfffa3942, 0x8771f681, 0x6d9d6122, 0xfde5380c,
   0xa4beea44, 0x4bdecfa9, 0xf6bb4b60, 0xbebfbc70,
   0x289b7ec6, 0xeaa127fa, 0xd4ef3085, 0x04881d05,
   0xd9d4d039, 0xe6db99e5, 0x1fa27cf8, 0xc4ac5665,
   0xf4292244, 0x432aff97, 0xab9423a7, 0xfc93a039,
   0x655b59c3, 0x8f0ccc92, 0xffeff47d, 0x85845dd1,
   0x6fa87e4f, 0xfe2ce6e0, 0xa3014314, 0x4e0811a1,
   0xf7537e82, 0xbd3af235, 0x2ad7d2bb, 0xeb86d391]

/-- The 64 per-round left-rotation amounts. -/
def md5S : List Nat :=
  [7, 12, 17, 22, 7, 12, 17, 22, 7, 12, 17, 22, 7, 12, 17, 22,
   5,  9, 14, 20, 5,  9, 14, 20, 5,  9, 14, 20, 5,  9, 14, 20,
   4, 11, 16, 23, 4, 11, 16, 23, 4, 11, 16, 23, 4, 11, 16, 23,
   6, 10, 15, 21, 6, 10, 15, 21, 6, 10, 15, 21, 6, 10, 15, 21]

/-- UTF-8 encoding of one character (input strings are hashed as UTF-8). -/
def utf8Bytes (c : Char) : List Nat :=
  let n := c.toNat
  if n < 0x80 then [n]
  else if n < 0x800 then
    [Nat.lor 0xC0 (Nat.shiftRight n 6), Nat.lor 0x80 (Nat.land n 0x3F)]
  else if n < 0x10000 then
    [Nat.lor 0xE0 (Nat.shiftRight n 12),
     Nat.lor 0x80 (Nat.land (Nat.shiftRight n 6) 0x3F),
     Nat.lor 0x80 (Nat.land n 0x3F)]
  else
    [Nat.lor 0xF0 (Nat.shiftRight n 18),
     Nat.lor 0x80 (Nat.land (Nat.shiftRight n 12) 0x3F),
     Nat.lor 0x80 (Nat.land (Nat.shiftRight n 6) 0x3F),
     Nat.lor 0x80 (Nat.land n 0x3F)]

def strBytes (s : String) : List Nat :=
  (s.data.map utf8Bytes).flatten

/-- Little-endian 8-byte encoding of the bit length. -/
def le64 (n : Nat) : List Nat :=
  [Nat.land n 255,
   Nat.land (Nat.shiftRight n 8) 255,
   Nat.land (Nat.shiftRight n 16) 255,
   Nat.land (Nat.shiftRight n 24) 255,
   Nat.land (Nat.shiftRight n 32) 255,
   Nat.land (Nat.shiftRight n 40) 255,
   Nat.land (Nat.shiftRight n 48) 255,
   Nat.land (Nat.shiftRight n 56) 255]

/-- MD5 padding: `0x80`, zeros to 56 mod 64, then the 64-bit bit length. -/
def padMessage (msg : List Nat) : List Nat :=
  let len := msg.length
  let k := (119 - (len % 64)) % 64
  msg ++ 0x80 :: List.replicate k 0 ++ le64 ((len * 8) % 18446744073709551616)

def leWord (b0 b1 b2 b3 : Nat) : Nat :=
  b0 + Nat.shiftLeft b1 8 + Nat.shiftLeft b2 16 + Nat.shiftLeft b3 24

/-- Group a chunk's bytes into 16 little-endian 32-bit words. -/
def toWords : List Nat → List Nat
  | b0 :: b1 :: b2 :: b3 :: rest => leWord b0 b1 b2 b3 :: toWords rest
  | _ => []

/-- Split the padded message into 64-byte chunks (structural recursion on a
fuel bounded by the list length, so the kernel can evaluate it). -/
def chunks64Go : Nat → List Nat → List (List Nat)
  | 0, _ => []
  | _ + 1, [] => []
  | fuel + 1, b :: rest => ((b :: rest).take 64) :: chunks64Go fuel ((b :: rest).drop 64)

def chunks64 (l : List Nat) : List (List Nat) :=
  chunks64Go l.length l

structure MD5State where
  a : Nat
  b : Nat
  c : Nat
  d : Nat

def md5Init : MD5State := ⟨0x67452301, 0xefcdab89, 0x98badcfe, 0x10325476⟩

def md5Round (M : List Nat) (st : MD5State) (i : Nat) : MD5State :=
  let fg : Nat × Nat :=
    if i < 16 then
      (Nat.lor (Nat.land st.b st.c) (Nat.land (not32 st.b) st.d), i)
    else if i < 32 then
      (Nat.lor (Nat.land st.d st.b) (Nat.land (not32 st.d) st.c), (5 * i + 1) % 16)
    else if i < 48 then
      (Nat.xor (Nat.xor st.b st.c) st.d, (3 * i + 5) % 16)
    else
      (Nat.xor st.c (Nat.lor st.b (not32 st.d)), (7 * i) % 16)
  let f := (fg.1 + st.a + md5K.getD i 0 + M.getD fg.2 0) % 4294967296
  ⟨st.d, add32 st.b (rotl32 f (md5S.getD i 0)), st.b, st.c⟩

def md5Chunk (st : MD5State) (chunk : List Nat) : MD5State :=
  let M := toWords chunk
  let r := (List.range 64).foldl (md5Round M) st
  ⟨add32 st.a r.a, add32 st.b r.b, add32 st.c r.c, add32 st.d r.d⟩

def hexDigit (n : Nat) : Char :=
  if n < 10 then Char.ofNat (48 + n) else Char.ofNat (87 + n)

def hexByte (b : Nat) : List Char :=
  [hexDigit (Nat.shiftRight b 4), hexDigit (Nat.land b 15)]

def leBytes32 (w : Nat) : List Nat :=
  [Nat.land w 255,
   Nat.land (Nat.shiftRight w 8) 255,
   Nat.land (Nat.shiftRight w 16) 255,
   Nat.land (Nat.shiftRight w 24) 255]

/-- The characters of the full lowercase hex MD5 digest of a string. -/
def md5HexChars (s : String) : List Char :=
  let st := (chunks64 (padMessage (strBytes s))).foldl md5Chunk md5Init
  ((leBytes32 st.a ++ leBytes32 st.b ++ leBytes32 st.c ++ leBytes32 st.d).map
    hexByte).flatten

/-- The full lowercase hex MD5 digest of a string. -/
def md5Hex (s : String) : String :=
  String.mk (md5HexChars s)

/-- `hashText` (src/index.ts:57-59): first 8 hex characters of the MD5 digest
(`.digest('hex').slice(0, 8)`). -/
def hashText (text : String) : String :=
  String.mk ((md5HexChars text).take 8)

/-! ### JS `Map` model

Association lists: `set` conses in front, `get` returns the first (most
recent) binding.  The source only ever calls `get`/`has`/`set`/`clear` on its
maps, so this has the same observable behaviour. -/

def mapSet {α : Type} (m : List (String × α)) (k : String) (v : α) :
    List (String × α) :=
  (k, v) :: m

def mapGet {α : Type} (m : List (String × α)) (k : String) : Option α :=
  List.lookup k m

def mapHas {α : Type} (m : List (String × α)) (k : String) : Bool :=
  (mapGet m k).isSome

/-! ### AST model (the parser and visitor are external collaborators;
the visitor is modelled as the pre-order sequence of callback events it
fires, per spec §9) -/

/-- An interpolation expression inside a tagged template: a plain identifier
(`expression.type === 'Identifier'`) or any other expression shape. -/
inductive CssExpr where
  | ident (name : String)
  | complex
deriving DecidableEq

/-- A `TaggedTemplateExpression` node: its byte span, whether its tag is the
identifier `css`, the raw text of its quasis, and its interpolations. -/
structure TTNode where
  start : Nat
  stop : Nat
  tagIsCss : Bool
  quasis : List String
  exprs : List CssExpr
deriving DecidableEq

/-- The initializer of a variable declarator, as the visitor inspects it:
a tagged template, a string/number `Literal` (carried as its `String(value)`
rendering), or anything else. -/
inductive VInit where
  | tagged (tt : TTNode)
  | lit (value : String)
  | otherInit
deriving DecidableEq

/-- A `VariableDeclarator` node.  `idName = none` models `node.id.type !==
'Identifier'`; `init = none` models `node.init === null`. -/
structure VarDecl where
  idName : Option String
  init : Option VInit
deriving DecidableEq

/-- One visitor callback event, in traversal (pre-)order. -/
inductive VisitEvent where
  | varDecl (vd : VarDecl)
  | tagged (tt : TTNode)
deriving DecidableEq

/-- One entry of a static import: `importName = some n` models
`entry.importName.kind === 'Name'` with name `n`. -/
structure ImportEntry where
  localName : String
  importName : Option String
deriving DecidableEq

structure StaticImport where
  moduleRequest : String
  entries : List ImportEntry
deriving DecidableEq

/-- One entry of a static export.  `isReExport` models
`entry.importName.kind !== 'None'`; the name fields are `some` exactly when
the corresponding kind is `'Name'`. -/
structure ExportEntry where
  isReExport : Bool
  exportName : Option String
  localName : Option String
deriving DecidableEq

structure StaticExport where
  entries : List ExportEntry
deriving DecidableEq

/-- The parser's output for one file. -/
structure ParseResult where
  staticImports : List StaticImport
  staticExports : List StaticExport
  events : List VisitEvent
deriving DecidableEq

/-! ### File analyzer (`parseFile`, src/index.ts:92-238) -/

structure Declaration where
  className : String
  node : TTNode
  hasInterpolations : Bool
deriving DecidableEq

structure ParsedFileInfo where
  declarations : List Declaration
  localIdentifiers : List (String × String)
  importedIdentifiers : List (String × (String × String))
  exportNameToValueMap : List (String × String)
deriving DecidableEq

instance : Inhabited ParsedFileInfo := ⟨⟨[], [], [], []⟩⟩

/-- How `${localName}` renders in the template literal forming the hash key:
JS renders the absent value as the text `undefined`. -/
def showLocalName : Option String → String
  | some n => n
  | none => "undefined"

/-- The hash key `` `${relativePath}:${index}:${localName}` ``
(src/index.ts:182). -/
def classKey (relativePath : String) (index : Nat) (localName : Option String) :
    String :=
  relativePath ++ ":" ++ Nat.repr index ++ ":" ++ showLocalName localName

/-- The generated class name `` `${classPrefix}${hash}` ``
(src/index.ts:182-184). -/
def generateClassName (classPrefix relativePath : String) (index : Nat)
    (localName : Option String) : String :=
  classPrefix ++ hashText (classKey relativePath index localName)

/-- Mutable state built up while the visitor runs over one file. -/
structure AnalyzeState where
  declarations : List Declaration
  localIdentifiers : List (String × String)
  exportNameToValueMap : List (String × String)
  seenFromVarDecl : List TTNode
deriving DecidableEq

/-- `recordIdentifierWithValue` (src/index.ts:159-166). -/
def recordIdentifierWithValue (localToExported : List (String × String))
    (st : AnalyzeState) (localName value : String) : AnalyzeState :=
  let st :=
    { st with localIdentifiers := mapSet st.localIdentifiers localName value }
  match mapGet localToExported localName with
  | some exportedName =>
      { st with
        exportNameToValueMap := mapSet st.exportNameToValueMap exportedName value }
  | none => st

/-- `handleTaggedTemplateExpression` (src/index.ts:168-196). -/
def handleTaggedTemplate (classPrefix relativePath : String)
    (localToExported : List (String × String)) (localName : Option String)
    (node : TTNode) (st : AnalyzeState) : AnalyzeState :=
  if !node.tagIsCss then st
  else
    let index := st.declarations.length
    let className := generateClassName classPrefix relativePath index localName
    let st :=
      { st with
        declarations := st.declarations ++
          [{ className := className, node := node,
             hasInterpolations := !node.exprs.isEmpty }] }
    match localName with
    | some n => recordIdentifierWithValue localToExported st n className
    | none => st

/-- One step of the visitor (the two callbacks, src/index.ts:199-224). -/
def applyEvent (classPrefix relativePath : String)
    (localToExported : List (String × String)) (st : AnalyzeState) :
    VisitEvent → AnalyzeState
  | .varDecl vd =>
    match vd.init, vd.idName with
    | none, _ => st
    | _, none => st
    | some (.tagged tt), some localName =>
        let st := { st with seenFromVarDecl := tt :: st.seenFromVarDecl }
        handleTaggedTemplate classPrefix relativePath localToExported
          (some localName) tt st
    | some (.lit v), some localName =>
        recordIdentifierWithValue localToExported st localName v
    | some .otherInit, some _ => st
  | .tagged tt =>
    if st.seenFromVarDecl.contains tt then st
    else handleTaggedTemplate classPrefix relativePath localToExported none tt st

/-- One entry of the import-collection loop (src/index.ts:121-129). -/
def importStep (moduleRequest : String)
    (m : List (String × (String × String))) (e : ImportEntry) :
    List (String × (String × String)) :=
  match e.importName with
  | some importedName => mapSet m e.localName (moduleRequest, importedName)
  | none => m

/-- Collecting named imports (src/index.ts:120-130). -/
def collectImports (imps : List StaticImport) :
    List (String × (String × String)) :=
  imps.foldl (fun m imp => imp.entries.foldl (importStep imp.moduleRequest) m) []

/-- One entry of the export-collection loop (src/index.ts:136-149):
re-exports (`importName.kind !== 'None'`) and non-name kinds are skipped. -/
def exportStep (m : List (String × String)) (e : ExportEntry) :
    List (String × String) :=
  if e.isReExport then m
  else
    match e.exportName, e.localName with
    | some exportedName, some localName => mapSet m localName exportedName
    | _, _ => m

/-- Collecting plain named exports (src/index.ts:135-150). -/
def collectExports (exps : List StaticExport) : List (String × String) :=
  exps.foldl (fun m ex => ex.entries.foldl exportStep m) []

/-- The pure analysis core of `parseFile`: from the parser's output to the
`ParsedFileInfo` (src/index.ts:113-233). -/
def analyzeParseResult (classPrefix relativePath : String) (pr : ParseResult) :
    ParsedFileInfo :=
  let importedIdentifiers := collectImports pr.staticImports
  let localToExported := collectExports pr.staticExports
  let st :=
    pr.events.foldl (applyEvent classPrefix relativePath localToExported)
      ⟨[], [], [], []⟩
  { declarations := st.declarations
    localIdentifiers := st.localIdentifiers
    importedIdentifiers := importedIdentifiers
    exportNameToValueMap := st.exportNameToValueMap }

/-! ### Host environment, plugin state, and the cached `parseFile` -/

/-- External collaborators (host file system, parser, module resolution and
path relativization), fixed for the duration of one build. -/
structure Env where
  readFile : String → List Char
  parseSync : String → List Char → ParseResult
  resolveId : String → String → Option String
  relativeOf : String → String
  classPrefix : String

/-- `.replaceAll('\\', '/')` (src/index.ts:107): single characters, so a
character-wise map. -/
def normalizeSlashes (s : String) : String :=
  String.mk (s.data.map fun c => if c = '\\' then '/' else c)

/-- The plugin's two module-level caches. -/
structure PState where
  parsedFileInfoCache : List (String × ParsedFileInfo)
  extractedCssPerFile : List (String × String)
deriving DecidableEq

/-- `parseFile` (src/index.ts:92-238), with the cache threaded explicitly. -/
def parseFile (env : Env) (st : PState) (filePath : String)
    (code : Option (List Char)) : ParsedFileInfo × PState :=
  match code, mapGet st.parsedFileInfoCache filePath with
  | none, some info => (info, st)
  | _, _ =>
    let relativePath := normalizeSlashes (env.relativeOf filePath)
    let sourceText :=
      match code with
      | some c => c
      | none => env.readFile filePath
    let pr := env.parseSync filePath sourceText
    let info := analyzeParseResult env.classPrefix relativePath pr
    (info,
     { st with parsedFileInfoCache := mapSet st.parsedFileInfoCache filePath info })

/-! ### Extraction engine (`extractCssFromCode`, src/index.ts:244-410) -/

structure Replacement where
  start : Nat
  stop : Nat
  className : String
deriving DecidableEq

structure CssExtraction where
  className : String
  cssContent : String
  sourcePosition : Nat
deriving DecidableEq

/-- The ECMAScript `\s` character class (WhiteSpace and LineTerminator),
the set `String.prototype.trim` and the `\s` of the import regex strip. -/
def isJsSpace (c : Char) : Bool :=
  decide
    (c = '\t' ∨ c = '\n' ∨ c = '\x0b' ∨ c = '\x0c' ∨ c = '\r' ∨ c = ' ' ∨
     c = '\u00a0' ∨ c = '\u1680' ∨ ('\u2000' ≤ c ∧ c ≤ '\u200a') ∨
     c = '\u2028' ∨ c = '\u2029' ∨ c = '\u202f' ∨ c = '\u205f' ∨
     c = '\u3000' ∨ c = '\ufeff')

/-- Character-wise `String.prototype.trim` (leading and trailing JS
whitespace removed), written so the kernel can evaluate it. -/
def trimStr (s : String) : String :=
  String.mk
    (((s.data.dropWhile isJsSpace).reverse.dropWhile isJsSpace).reverse)

/-- `resolveValue` (src/index.ts:269-295): local identifiers first, then one
hop through the host resolver into the target file's export map. -/
def resolveValue (env : Env) (st : PState) (info : ParsedFileInfo)
    (filePath identifierName : String) : Option String × PState :=
  match mapGet info.localIdentifiers identifierName with
  | some v => (some v, st)
  | none =>
    match mapGet info.importedIdentifiers identifierName with
    | some (source, imported) =>
      match env.resolveId source filePath with
      | some resolvedId =>
        let r := parseFile env st resolvedId none
        (mapGet r.1.exportNameToValueMap imported, r.2)
      | none => (none, st)
    | none => (none, st)

/-- `addProcessedDeclaration` (src/index.ts:298-315): push one extraction
record (content trimmed) and one replacement. -/
def addProcessedDeclaration (acc : List CssExtraction × List Replacement)
    (declaration : Declaration) (cssContent : String) :
    List CssExtraction × List Replacement :=
  (acc.1 ++
    [{ className := declaration.className, cssContent := trimStr cssContent,
       sourcePosition := declaration.node.start }],
   acc.2 ++
    [{ start := declaration.node.start, stop := declaration.node.stop,
       className := declaration.className }])

/-- The pass-2 inner loop (src/index.ts:330-358): concatenate quasis with
resolved interpolation values; `none` when an interpolation is a complex
expression or an identifier that does not resolve. -/
def buildContent (env : Env) (info : ParsedFileInfo) (filePath : String) :
    PState → String → List String → List CssExpr → Option String × PState
  | st, acc, [], _ => (some acc, st)
  | st, acc, q :: qs, [] => buildContent env info filePath st (acc ++ q) qs []
  | st, acc, q :: qs, e :: es =>
    match e with
    | .complex => (none, st)
    | .ident identifierName =>
      match resolveValue env st info filePath identifierName with
      | (none, st) => (none, st)
      | (some v, st) => buildContent env info filePath st (acc ++ q ++ v) qs es

/-- The content a declaration resolves to, and the plugin state afterwards:
pass 1's verbatim sole quasi for an interpolation-free declaration
(src/index.ts:317-324), pass 2's `buildContent` otherwise
(src/index.ts:330-358). -/
def resolveDecl (env : Env) (info : ParsedFileInfo) (fp : String)
    (st : PState) (d : Declaration) : Option String × PState :=
  if d.hasInterpolations then
    buildContent env info fp st "" d.node.quasis d.node.exprs
  else (some (d.node.quasis.headD ""), st)

/-- A single text splice
`` `${code.slice(0, start)}'${className}'${code.slice(end)}` ``
(src/index.ts:383). -/
def spliceOne (code : List Char) (r : Replacement) : List Char :=
  code.take r.start ++ '\'' :: (r.className.data ++ ['\'']) ++ code.drop r.stop

/-- Sorting the replacements by start offset descending and applying them by
text splicing from the highest offset to the lowest (src/index.ts:375-384). -/
def applyReplacements (code : List Char) (rs : List Replacement) : List Char :=
  (rs.mergeSort fun a b => decide (b.start ≤ a.start)).foldl spliceOne code

/-- Modelled from the spec (§8, idempotent splicing), for the refinement
claim C4: direct simultaneous substitution of each single-quoted class-name
literal at its recorded `[start, stop)` range in the original text, the
ranges taken in ascending start order. -/
def substituteFrom (code : List Char) : Nat → List Replacement → List Char
  | pos, [] => code.drop pos
  | pos, r :: rs =>
    (code.take r.start).drop pos ++ '\'' :: (r.className.data ++ ['\'']) ++
      substituteFrom code r.stop rs

/-- Modelled from the spec (§8): substitute every replacement at its recorded
range in the original text. -/
def substituteAll (code : List Char) (rs : List Replacement) : List Char :=
  substituteFrom code 0 (rs.mergeSort fun a b => decide (a.start ≤ b.start))

/-- One rendered rule block `` `.${className} {\n  ${cssContent}\n}` ``
(src/index.ts:398). -/
def renderBlock (className cssContent : String) : String :=
  "." ++ className ++ " \x7b\n  " ++ cssContent ++ "\n\x7d"

structure ExtractResult where
  transformedCode : List Char
  hasExtractions : Bool
  cssContent : String
  hasUnprocessedCssBlocks : Bool
deriving DecidableEq

/-- Pass 1 of the extraction (src/index.ts:317-324): declarations without
interpolations; the content is the sole quasi, used verbatim. -/
def passOne (declarations : List Declaration) :
    List CssExtraction × List Replacement :=
  declarations.foldl
    (fun acc declaration =>
      if declaration.hasInterpolations then acc
      else
        addProcessedDeclaration acc declaration
          (declaration.node.quasis.headD ""))
    ([], [])

/-- One step of pass 2 (src/index.ts:326-364): resolve the interpolations of
one declaration; on failure the declaration is skipped. -/
def passTwoStep (env : Env) (info : ParsedFileInfo) (filePath : String)
    (accSt : (List CssExtraction × List Replacement) × PState)
    (declaration : Declaration) :
    (List CssExtraction × List Replacement) × PState :=
  if !declaration.hasInterpolations then accSt
  else
    match
      buildContent env info filePath accSt.2 "" declaration.node.quasis
        declaration.node.exprs
    with
    | (some cssContent, st) =>
        (addProcessedDeclaration accSt.1 declaration cssContent, st)
    | (none, st) => (accSt.1, st)

/-- Building the rule blocks (src/index.ts:394-400): one block per extraction
with non-empty content. -/
def buildCssBlocks (sortedExtractions : List CssExtraction) : List String :=
  sortedExtractions.foldl
    (fun bl e =>
      if e.cssContent ≠ "" then bl ++ [renderBlock e.className e.cssContent]
      else bl)
    []

/-- `extractCssFromCode` (src/index.ts:244-410). -/
def extractCssFromCode (env : Env) (st : PState) (code : List Char)
    (filePath : String) : ExtractResult × PState :=
  let p := parseFile env st filePath (some code)
  let info := p.1
  let acc := passOne info.declarations
  let p2 := info.declarations.foldl (passTwoStep env info filePath) (acc, p.2)
  let cssExtractions := p2.1.1
  let replacements := p2.1.2
  let st := p2.2
  if replacements.isEmpty then
    ({ transformedCode := code, hasExtractions := false, cssContent := "",
       hasUnprocessedCssBlocks := false }, st)
  else
    let transformedCode := applyReplacements code replacements
    let hasUnprocessedCssBlocks :=
      decide (info.declarations.length > replacements.length)
    let sortedExtractions :=
      cssExtractions.mergeSort fun a b =>
        decide (a.sourcePosition ≤ b.sourcePosition)
    let cssBlocks := buildCssBlocks sortedExtractions
    ({ transformedCode := transformedCode, hasExtractions := true,
       cssContent := String.intercalate "\n\n" cssBlocks,
       hasUnprocessedCssBlocks := hasUnprocessedCssBlocks }, st)

/-- The two extraction passes of `extractCssFromCode` bundled ( pass 1 over
the interpolation-free declarations, then the pass-2 fold): the extraction
records, the replacements, and the threaded plugin state. -/
def extractionPasses (env : Env) (st : PState) (code : List Char)
    (fp : String) : (List CssExtraction × List Replacement) × PState :=
  (parseFile env st fp (some code)).1.declarations.foldl
    (passTwoStep env (parseFile env st fp (some code)).1 fp)
    (passOne (parseFile env st fp (some code)).1.declarations,
     (parseFile env st fp (some code)).2)

/-! ### `removeImport` (src/index.ts:64-68)

A faithful executable model of the global regex replacement
`code.replace(/import\s+\x7b\s*css\s*\x7d\s+from\s+['"]ecij['"];?\s*[slash]g, '')`:
scan left to right, at each position try to match the pattern (each
`\s*`/`\s+` is followed by a required non-space character, so greedy matching
without backtracking is exact), delete each match and continue scanning after
its end, exactly as `String.prototype.replace` with the `g` flag does. -/

def eatLit : List Char → List Char → Option (List Char)
  | [], cs => some cs
  | l :: ls, c :: cs => if c = l then eatLit ls cs else none
  | _ :: _, [] => none

def eatChar (c : Char) : List Char → Option (List Char)
  | x :: cs => if x = c then some cs else none
  | [] => none

/-- `\s+`: at least one space, then greedily all following spaces. -/
def eatWs1 : List Char → Option (List Char)
  | c :: rest => if isJsSpace c then some (rest.dropWhile isJsSpace) else none
  | [] => none

/-- `['"]`: either quote character. -/
def eatQuote : List Char → Option (List Char)
  | c :: cs => if c = '\'' ∨ c = '"' then some cs else none
  | [] => none

/-- `;?`: an optional semicolon. -/
def eatSemi : List Char → List Char
  | ';' :: cs => cs
  | cs => cs

/-- Try to match the import pattern at the head of `cs`; on success return
the text after the match. -/
def matchImport (cs : List Char) : Option (List Char) :=
  (eatLit "import".data cs).bind fun cs =>
  (eatWs1 cs).bind fun cs =>
  (eatChar '\x7b' cs).bind fun cs =>
  (eatLit "css".data (cs.dropWhile isJsSpace)).bind fun cs =>
  (eatChar '\x7d' (cs.dropWhile isJsSpace)).bind fun cs =>
  (eatWs1 cs).bind fun cs =>
  (eatLit "from".data cs).bind fun cs =>
  (eatWs1 cs).bind fun cs =>
  (eatQuote cs).bind fun cs =>
  (eatLit "ecij".data cs).bind fun cs =>
  (eatQuote cs).bind fun cs =>
  some ((eatSemi cs).dropWhile isJsSpace)

/-- The scan, on a fuel that bounds the remaining length (a successful match
consumes at least one character, so `cs.length` fuel suffices). -/
def removeImportGo : Nat → List Char → List Char
  | 0, cs => cs
  | _ + 1, [] => []
  | fuel + 1, c :: cs =>
    match matchImport (c :: cs) with
    | some rest => removeImportGo fuel rest
    | none => c :: removeImportGo fuel cs

def removeImport (cs : List Char) : List Char :=
  removeImportGo cs.length cs

/-! ### Post-processing and the transform `handler` (src/index.ts:412-496) -/

/-- `JSON.stringify` escaping of one character of a string value. -/
def jsonEscapeChar (c : Char) : List Char :=
  if c = '"' then ['\\', '"']
  else if c = '\\' then ['\\', '\\']
  else if c = '\n' then ['\\', 'n']
  else if c = '\r' then ['\\', 'r']
  else if c = '\t' then ['\\', 't']
  else if c = '\x08' then ['\\', 'b']
  else if c = '\x0c' then ['\\', 'f']
  else if c.toNat < 0x20 then '\\' :: 'u' :: '0' :: '0' :: hexByte c.toNat
  else [c]

/-- `JSON.stringify` of a string value. -/
def jsonStringify (s : String) : List Char :=
  '"' :: (s.data.map jsonEscapeChar).flatten ++ ['"']

/-- `addCssImport` (src/index.ts:73-76):
`` `import ${JSON.stringify(cssModuleId)};\n\n${code}` ``. -/
def addCssImport (code : List Char) (cssModuleId : String) : List Char :=
  "import ".data ++ jsonStringify cssModuleId ++ ";\n\n".data ++ code

/-- `code.includes(pat)`: the pattern occurs somewhere in the text. -/
def includesStr (pat : List Char) : List Char → Bool
  | [] => pat.isEmpty
  | c :: cs => pat.isPrefixOf (c :: cs) || includesStr pat cs

/-- Strip query parameters: `id.slice(0, id.indexOf('?'))`
(src/index.ts:447-448). -/
def stripQuery (id : String) : String :=
  String.mk (id.data.takeWhile fun c => c != '?')

/-- The style-module registration and css-import prepend
(src/index.ts:467-483): when the style text is non-empty, register the
virtual style module (keyed by the file path plus a digest of the style
text) and prepend its import. -/
def postCss (cleanId : String) (r : ExtractResult × PState) :
    List Char × PState :=
  if r.1.cssContent ≠ "" then
    let hash := hashText r.1.cssContent
    let cssModuleId := cleanId ++ "." ++ hash ++ ".css"
    (addCssImport r.1.transformedCode cssModuleId,
     { r.2 with
       extractedCssPerFile :=
         mapSet r.2.extractedCssPerFile cssModuleId r.1.cssContent })
  else (r.1.transformedCode, r.2)

/-- The `transform.handler` hook (src/index.ts:445-493).  `none` models the
`return null` paths (the host keeps the original code). -/
def handler (env : Env) (st : PState) (code : List Char) (id : String) :
    Option (List Char) × PState :=
  let cleanId := stripQuery id
  if !(includesStr "ecij".data code) then (none, st)
  else
    let r := extractCssFromCode env st code cleanId
    if !r.1.hasExtractions then (none, r.2)
    else
      let q := postCss cleanId r
      let finalCode :=
        if !r.1.hasUnprocessedCssBlocks then removeImport q.1 else q.1
      (some finalCode, q.2)

/-- Modelled from the spec (§4.4/§8): every declaration of the file resolves
successfully — declarations without interpolations always do, and each
declaration with interpolations must have `buildContent` succeed at the
plugin state current when pass 2 reaches it. -/
def allResolvedFrom (env : Env) (info : ParsedFileInfo) (filePath : String) :
    PState → List Declaration → Bool
  | _, [] => true
  | st, d :: ds =>
    if d.hasInterpolations then
      match buildContent env info filePath st "" d.node.quasis d.node.exprs with
      | (some _, st2) => allResolvedFrom env info filePath st2 ds
      | (none, _) => false
    else allResolvedFrom env info filePath st ds

/-- The `buildEnd` hook (src/index.ts:415-419): clear both caches. -/
def buildEnd (_ : PState) : PState := ⟨[], []⟩

/-! ### Concrete scenario used to refute claim C3 as stated: a file with
65414 css-tagged declarations, all bound to the same variable name `a`. -/

def collisionNode : TTNode :=
  { start := 0, stop := 1, tagIsCss := true, quasis := [""], exprs := [] }

def collisionEvent : VisitEvent :=
  .varDecl { idName := some "a", init := some (.tagged collisionNode) }

def collisionParse : ParseResult :=
  { staticImports := [], staticExports := [],
    events := List.replicate 65414 collisionEvent }

/-- Decimal denotation of a digit string. -/
def digitsVal (l : List Char) : Nat :=
  l.foldl (fun acc c => acc * 10 + (c.toNat - 48)) 0

/-! ### Counting css-tagged template events (for the C9 invariant) -/

/-- Is this event the visit of a tagged template whose tag is `css`? -/
def isCssTaggedEvent : VisitEvent → Bool
  | .tagged tt => tt.tagIsCss
  | _ => false

/-- The number of distinct css-tagged template nodes of the file: the
traversal visits every node exactly once, so each node fires exactly one
`TaggedTemplateExpression` callback event. -/
def cssTaggedCount (evs : List VisitEvent) : Nat :=
  (evs.filter isCssTaggedEvent).length

/-- A css-tagged event whose node is already in the declarator-initializer
set, i.e. one the `TaggedTemplateExpression` callback will skip. -/
def isSkippedCssEvent (S : List TTNode) : VisitEvent → Bool
  | .tagged tt => tt.tagIsCss && S.contains tt
  | _ => false

def skipCount (S : List TTNode) (evs : List VisitEvent) : Nat :=
  (evs.filter (isSkippedCssEvent S)).length

/-- Traversal well-formedness: the visitor fires at most one event per
tagged-template node (each node is visited once). -/
abbrev TaggedEventsDistinct (evs : List VisitEvent) : Prop :=
  evs.Pairwise fun e₁ e₂ => ∀ t₁ t₂,
    e₁ = VisitEvent.tagged t₁ → e₂ = VisitEvent.tagged t₂ → t₁ ≠ t₂

/-- Traversal well-formedness (pre-order): a declarator is visited before its
tagged-template initializer, whose own event therefore appears later. -/
abbrev DeclInitsFollow (evs : List VisitEvent) : Prop :=
  ∀ l₁ n tt l₂,
    evs = l₁ ++ VisitEvent.varDecl ⟨some n, some (.tagged tt)⟩ :: l₂ →
    VisitEvent.tagged tt ∈ l₂

/-- Traversal well-formedness: distinct declarators have distinct
tagged-template initializer nodes (a node has a single parent). -/
abbrev DeclInitsDistinct (evs : List VisitEvent) : Prop :=
  evs.Pairwise fun e₁ e₂ => ∀ n₁ n₂ t₁ t₂,
    e₁ = VisitEvent.varDecl ⟨some n₁, some (.tagged t₁)⟩ →
    e₂ = VisitEvent.varDecl ⟨some n₂, some (.tagged t₂)⟩ → t₁ ≠ t₂

/-! ### Small concrete hosts, files and states used by witnesses -/

def emptyParse : ParseResult := ⟨[], [], []⟩

def emptyInfo : ParsedFileInfo := ⟨[], [], [], []⟩

/-- A trivial host: empty files, empty parses, no resolution. -/
def trivialEnv : Env :=
  { readFile := fun _ => []
    parseSync := fun _ _ => emptyParse
    resolveId := fun _ _ => none
    relativeOf := fun _ => "f.ts"
    classPrefix := "css-" }

/-- A plugin state whose cache already holds an entry for `f.ts`. -/
def cachedState : PState := ⟨[("f.ts", emptyInfo)], []⟩

/-- A parse result whose only export of `red` is a re-export. -/
def reExportParse : ParseResult :=
  { staticImports := []
    staticExports :=
      [{ entries := [{ isReExport := true, exportName := some "red",
                       localName := some "red" }] }]
    events := [] }

/-- An importer file's analysis: `red` imported from `./lib`. -/
def importerInfo : ParsedFileInfo :=
  { declarations := []
    localIdentifiers := []
    importedIdentifiers := [("red", ("./lib", "red"))]
    exportNameToValueMap := [] }

/-- A host whose resolver sends every specifier to `lib.ts`, a file whose
named export is a re-export. -/
def oneHopEnv : Env :=
  { readFile := fun _ => []
    parseSync := fun _ _ => reExportParse
    resolveId := fun _ _ => some "lib.ts"
    relativeOf := fun p => p
    classPrefix := "css-" }

/-- Nodes and events of the C9 witness file: one named css declaration
(declarator first, its initializer's own event second) and one inline css
template. -/
def wNodeA : TTNode :=
  { start := 0, stop := 1, tagIsCss := true, quasis := ["x"], exprs := [] }

def wNodeB : TTNode :=
  { start := 5, stop := 9, tagIsCss := true, quasis := ["y"], exprs := [] }

def wEvents : List VisitEvent :=
  [VisitEvent.varDecl ⟨some "a", some (.tagged wNodeA)⟩,
   VisitEvent.tagged wNodeA, VisitEvent.tagged wNodeB]

def wParse : ParseResult := ⟨[], [], wEvents⟩

/-- The C10 witness declaration: css-tagged, bound to `a`, with an
unresolvable (complex) interpolation. -/
def c10Node : TTNode :=
  { start := 0, stop := 9, tagIsCss := true, quasis := ["color: ", ";"],
    exprs := [.complex] }

/-- The C10 witness target file analysis: it exports `red` with value
`css-x`. -/
def c10TargetInfo : ParsedFileInfo := ⟨[], [], [], [("red", "css-x")]⟩

/-- A plugin state whose cache already holds `lib.ts`. -/
def c10State : PState := ⟨[("lib.ts", c10TargetInfo)], []⟩

/-- C2 files: a declaration without interpolations followed by one with a
complex (unresolvable) interpolation. In the counterexample file the first
declaration's content trims to the empty string; in the witness file it is
`color: red`. -/
def c2xNode1 : TTNode :=
  { start := 6, stop := 12, tagIsCss := true, quasis := [" "], exprs := [] }

def c2Node1 : TTNode :=
  { start := 6, stop := 12, tagIsCss := true, quasis := ["color: red"],
    exprs := [] }

def c2Node2 : TTNode :=
  { start := 20, stop := 30, tagIsCss := true, quasis := ["x", ""],
    exprs := [.complex] }

def c2xParse : ParseResult :=
  ⟨[], [], [VisitEvent.varDecl ⟨some "a", some (.tagged c2xNode1)⟩,
    VisitEvent.tagged c2xNode1,
    VisitEvent.varDecl ⟨some "b", some (.tagged c2Node2)⟩,
    VisitEvent.tagged c2Node2]⟩

def c2Parse : ParseResult :=
  ⟨[], [], [VisitEvent.varDecl ⟨some "a", some (.tagged c2Node1)⟩,
    VisitEvent.tagged c2Node1,
    VisitEvent.varDecl ⟨some "b", some (.tagged c2Node2)⟩,
    VisitEvent.tagged c2Node2]⟩

def c2xEnv : Env :=
  { readFile := fun _ => []
    parseSync := fun _ _ => c2xParse
    resolveId := fun _ _ => none
    relativeOf := fun _ => "f.ts"
    classPrefix := "css-" }

def c2Env : Env :=
  { readFile := fun _ => []
    parseSync := fun _ _ => c2Parse
    resolveId := fun _ _ => none
    relativeOf := fun _ => "f.ts"
    classPrefix := "css-" }

def c2Code : List Char := List.replicate 32 'q'

/-- C1 counterexample file: the canonical style-function import and no
declaration at all. -/
def zImportCode : List Char := "import \x7b css \x7d from 'ecij';".data

/-- C1 witness file: the canonical import followed by one resolvable,
interpolation-free css declaration. -/
def c1Node : TTNode :=
  { start := 30, stop := 43, tagIsCss := true, quasis := ["color: red"],
    exprs := [] }

def c1Parse : ParseResult :=
  ⟨[], [], [VisitEvent.varDecl ⟨some "a", some (.tagged c1Node)⟩,
    VisitEvent.tagged c1Node]⟩

def c1Env : Env :=
  { readFile := fun _ => []
    parseSync := fun _ _ => c1Parse
    resolveId := fun _ _ => none
    relativeOf := fun _ => "f.ts"
    classPrefix := "css-" }

def c1Code : List Char :=
  ("import \x7b css \x7d from 'ecij';\n" ++ "const a = css;").data

/-- The declaration the analyzer produces for the C1 witness file. -/
def c1D1 : Declaration :=
  { className := generateClassName "css-" "f.ts" 0 (some "a")
    node := c1Node, hasInterpolations := false }

/-- The two declarations the analyzer produces for the C2 witness file. -/
def c2D1 : Declaration :=
  { className := generateClassName "css-" "f.ts" 0 (some "a")
    node := c2Node1, hasInterpolations := false }

def c2D2 : Declaration :=
  { className := generateClassName "css-" "f.ts" 1 (some "b")
    node := c2Node2, hasInterpolations := true }

/-- The two declarations the analyzer produces for the C2 counterexample
file. -/
def c2xD1 : Declaration :=
  { className := generateClassName "css-" "f.ts" 0 (some "a")
    node := c2xNode1, hasInterpolations := false }

def c2xD2 : Declaration :=
  { className := generateClassName "css-" "f.ts" 1 (some "b")
    node := c2Node2, hasInterpolations := true }

/-! ### Facts about `Nat.repr`, used for hash-key disjointness -/

lemma toDigitsCore_eq_append (b f n : Nat) (l : List Char) :
    Nat.toDigitsCore b f n l = Nat.toDigitsCore b f n [] ++ l := by
  induction f generalizing n l with
  | zero => simp [Nat.toDigitsCore]
  | succ f ih =>
    simp only [Nat.toDigitsCore]
    split
    · simp
    · rw [ih (n / b) (Nat.digitChar (n % b) :: l),
        ih (n / b) [Nat.digitChar (n % b)]]
      simp

lemma toDigitsCore10_fuel (n : Nat) : ∀ f g, n < f → n < g →
    Nat.toDigitsCore 10 f n [] = Nat.toDigitsCore 10 g n [] := by
  induction n using Nat.strong_induction_on with
  | _ n ih =>
    intro f g hf hg
    match f, g with
    | f + 1, g + 1 =>
      simp only [Nat.toDigitsCore]
      by_cases h : n / 10 = 0
      · simp [h]
      · simp only [h, if_false]
        rw [toDigitsCore_eq_append 10 f, toDigitsCore_eq_append 10 g,
          ih (n / 10) (by omega) f g (by omega) (by omega)]

lemma toDigits10_base (n : Nat) (h : n < 10) :
    Nat.toDigits 10 n = [Nat.digitChar n] := by
  have h0 : n / 10 = 0 := by omega
  simp [Nat.toDigits, Nat.toDigitsCore, h0, Nat.mod_eq_of_lt h]

lemma toDigits10_step (n : Nat) (h : 10 ≤ n) :
    Nat.toDigits 10 n = Nat.toDigits 10 (n / 10) ++ [Nat.digitChar (n % 10)] := by
  have h0 : ¬(n / 10 = 0) := by omega
  conv_lhs => rw [Nat.toDigits]
  rw [Nat.toDigitsCore]
  simp only [h0, if_false]
  rw [toDigitsCore_eq_append,
    toDigitsCore10_fuel (n / 10) n (n / 10 + 1) (by omega) (by omega)]
  rfl

lemma digitChar_mem_digits (m : Nat) (h : m < 10) :
    Nat.digitChar m ∈ "0123456789".data := by
  interval_cases m <;> decide

lemma digitChar_toNat (m : Nat) (h : m < 10) :
    (Nat.digitChar m).toNat = 48 + m := by
  interval_cases m <;> decide

lemma toDigits10_chars (n : Nat) :
    ∀ c ∈ Nat.toDigits 10 n, c ∈ "0123456789".data := by
  induction n using Nat.strong_induction_on with
  | _ n ih =>
    by_cases h : n < 10
    · rw [toDigits10_base n h]
      intro c hc
      rw [List.mem_singleton] at hc
      exact hc ▸ digitChar_mem_digits n h
    · rw [toDigits10_step n (by omega)]
      intro c hc
      rcases List.mem_append.mp hc with h1 | h1
      · exact ih (n / 10) (by omega) c h1
      · rw [List.mem_singleton] at h1
        exact h1 ▸ digitChar_mem_digits (n % 10) (by omega)

lemma digitsVal_toDigits (n : Nat) : digitsVal (Nat.toDigits 10 n) = n := by
  induction n using Nat.strong_induction_on with
  | _ n ih =>
    by_cases h : n < 10
    · rw [toDigits10_base n h]
      simp only [digitsVal, List.foldl]
      rw [digitChar_toNat n h]
      omega
    · rw [toDigits10_step n (by omega)]
      simp only [digitsVal, List.foldl_append, List.foldl]
      have h1 := ih (n / 10) (by omega)
      simp only [digitsVal] at h1
      rw [h1, digitChar_toNat (n % 10) (by omega)]
      omega

lemma repr_data_eq (n : Nat) : (Nat.repr n).data = Nat.toDigits 10 n := by
  simp [Nat.repr, List.asString]

lemma natRepr_inj (m n : Nat) (h : Nat.repr m = Nat.repr n) : m = n := by
  have h1 : (Nat.repr m).data = (Nat.repr n).data := by rw [h]
  rw [repr_data_eq, repr_data_eq] at h1
  have h2 := congrArg digitsVal h1
  rwa [digitsVal_toDigits, digitsVal_toDigits] at h2

lemma natRepr_no_colon (n : Nat) : ':' ∉ (Nat.repr n).data := by
  rw [repr_data_eq]
  intro hmem
  have := toDigits10_chars n ':' hmem
  simp at this

/-- Splitting at the first colon: if the prefixes are colon-free, the two
decompositions agree. -/
lemma append_colon_inj (a : List Char) : ∀ b c d : List Char, ':' ∉ a → ':' ∉ c →
    a ++ ':' :: b = c ++ ':' :: d → a = c ∧ b = d := by
  induction a with
  | nil =>
    intro b c d _ hc h
    cases c with
    | nil => simpa using h
    | cons x cs =>
      simp only [List.nil_append, List.cons_append, List.cons.injEq] at h
      exact absurd (h.1 ▸ List.mem_cons_self x cs) hc
  | cons x xs ih =>
    intro b c d ha hc h
    cases c with
    | nil =>
      simp only [List.cons_append, List.nil_append, List.cons.injEq] at h
      exact absurd (h.1 ▸ List.mem_cons_self x xs) (h.1 ▸ ha)
    | cons y cs =>
      simp only [List.cons_append, List.cons.injEq] at h
      obtain ⟨rfl, h2⟩ := h
      have h3 := ih b cs d (fun hm => ha (List.mem_cons_of_mem x hm))
        (fun hm => hc (List.mem_cons_of_mem x hm)) h2
      exact ⟨by rw [h3.1], h3.2⟩

lemma colon_data : (":" : String).data = [':'] := rfl

/-- Hash keys are injective in the pair (index, rendered name) for a fixed
relative path. -/
lemma classKey_inj (rel : String) (i j : Nat) (n₁ n₂ : Option String)
    (h : classKey rel i n₁ = classKey rel j n₂) :
    i = j ∧ showLocalName n₁ = showLocalName n₂ := by
  unfold classKey at h
  have hd := congrArg String.data h
  simp only [String.data_append, List.append_assoc, colon_data,
    List.singleton_append, List.cons_append] at hd
  have hd2 := List.append_cancel_left hd
  rw [List.cons.injEq] at hd2
  have hd3 := append_colon_inj (Nat.repr i).data ((showLocalName n₁).data)
    (Nat.repr j).data ((showLocalName n₂).data) (natRepr_no_colon i)
    (natRepr_no_colon j) hd2.2
  refine ⟨natRepr_inj i j (String.ext hd3.1), String.ext hd3.2⟩

/-- Two class names built from the same prefix agree exactly when the hashes
of their keys agree. -/
lemma generateClassName_eq_iff (pfx rel₁ rel₂ : String) (i j : Nat)
    (n₁ n₂ : Option String) :
    generateClassName pfx rel₁ i n₁ = generateClassName pfx rel₂ j n₂ ↔
      hashText (classKey rel₁ i n₁) = hashText (classKey rel₂ j n₂) := by
  unfold generateClassName
  constructor
  · intro h
    have hd := congrArg String.data h
    simp only [String.data_append] at hd
    exact String.ext (List.append_cancel_left hd)
  · intro h
    rw [h]

/-- Projecting the declarations out of the analysis (generic, so it reduces
cheaply). -/
lemma analyzeParseResult_declarations (pfx rel : String) (pr : ParseResult) :
    (analyzeParseResult pfx rel pr).declarations =
      (pr.events.foldl (applyEvent pfx rel (collectExports pr.staticExports))
        ⟨[], [], [], []⟩).declarations := rfl

/-! ### Lemmas about the collision file -/

lemma recordIdentifierWithValue_decls (lte : List (String × String))
    (st : AnalyzeState) (n v : String) :
    (recordIdentifierWithValue lte st n v).declarations = st.declarations := by
  unfold recordIdentifierWithValue
  cases mapGet lte n <;> rfl

lemma applyEvent_collision_decls (st : AnalyzeState) :
    (applyEvent "css-" "a.ts" [] st collisionEvent).declarations =
      st.declarations ++
        [{ className :=
             generateClassName "css-" "a.ts" st.declarations.length (some "a"),
           node := collisionNode, hasInterpolations := false }] := by
  show (handleTaggedTemplate "css-" "a.ts" [] (some "a") collisionNode
      { st with seenFromVarDecl := collisionNode :: st.seenFromVarDecl }).declarations = _
  unfold handleTaggedTemplate
  simp [collisionNode, recordIdentifierWithValue_decls]

lemma collision_decls (k : Nat) :
    ((List.replicate k collisionEvent).foldl (applyEvent "css-" "a.ts" [])
        ⟨[], [], [], []⟩).declarations =
      (List.range k).map (fun i =>
        { className := generateClassName "css-" "a.ts" i (some "a"),
          node := collisionNode, hasInterpolations := false }) := by
  induction k with
  | zero => rfl
  | succ n ih =>
    rw [List.replicate_succ', List.foldl_append, List.foldl_cons, List.foldl_nil,
      applyEvent_collision_decls, ih, List.range_succ, List.map_append]
    simp

lemma collision_analyze :
    (analyzeParseResult "css-" "a.ts" collisionParse).declarations =
      (List.range 65414).map (fun i =>
        { className := generateClassName "css-" "a.ts" i (some "a"),
          node := collisionNode, hasInterpolations := false }) := by
  have h := collision_decls 65414
  have he : collisionParse.events = List.replicate 65414 collisionEvent := rfl
  have hx : collectExports collisionParse.staticExports = [] := rfl
  rw [analyzeParseResult_declarations, he, hx, h]

/-- C3, counterexample: in the analyzed file `collisionParse` (relative path
`a.ts`, every declaration bound to the same variable name `a`), the
declarations at the distinct indices 31292 and 65413 receive the *same*
generated class name `css-d101ee26`: the first 8 hex characters of the MD5
digests of the distinct keys `a.ts:31292:a` and `a.ts:65413:a` coincide.
So two declarations in the same file with the same variable name but
different indices *can* produce equal class names. -/
theorem sameName_differentIndex_className_collision :
    (31292 : Nat) ≠ 65413 ∧
    (analyzeParseResult "css-" "a.ts" collisionParse).declarations[31292]?.map
        Declaration.className =
      some (generateClassName "css-" "a.ts" 31292 (some "a")) ∧
    (analyzeParseResult "css-" "a.ts" collisionParse).declarations[65413]?.map
        Declaration.className =
      some (generateClassName "css-" "a.ts" 65413 (some "a")) ∧
    generateClassName "css-" "a.ts" 31292 (some "a") =
      generateClassName "css-" "a.ts" 65413 (some "a") := by
  refine ⟨by decide, ?_, ?_, by decide⟩
  · rw [collision_analyze, List.getElem?_map,
      List.getElem?_range (by omega : 31292 < 65414)]
    rfl
  · rw [collision_analyze, List.getElem?_map,
      List.getElem?_range (by omega : 65413 < 65414)]
    rfl

/-- C3 (amended): for a fixed relative path, two class-name computations with
different indices, or with different rendered variable names (a variable
literally named `undefined` renders like the absent marker), always use
*distinct* hash keys, and the class names coincide exactly when the 8-hex
truncated digests of those distinct keys coincide — i.e. only by hash
coincidence. -/
theorem className_collision_only_by_hash_coincidence
    (pfx rel : String) (i j : Nat) (n₁ n₂ : Option String)
    (hne : i ≠ j ∨ showLocalName n₁ ≠ showLocalName n₂) :
    classKey rel i n₁ ≠ classKey rel j n₂ ∧
    (generateClassName pfx rel i n₁ = generateClassName pfx rel j n₂ ↔
      hashText (classKey rel i n₁) = hashText (classKey rel j n₂)) := by
  refine ⟨fun h => ?_, generateClassName_eq_iff pfx rel rel i j n₁ n₂⟩
  rcases classKey_inj rel i j n₁ n₂ h with ⟨hi, hn⟩
  rcases hne with h' | h' <;> exact h' (by assumption)

/-- Witness for the amended C3 at concrete inputs. -/
theorem className_collision_only_by_hash_coincidence_witness :
    classKey "a.ts" 0 (some "a") ≠ classKey "a.ts" 1 (some "a") ∧
    (generateClassName "css-" "a.ts" 0 (some "a") =
        generateClassName "css-" "a.ts" 1 (some "a") ↔
      hashText (classKey "a.ts" 0 (some "a")) =
        hashText (classKey "a.ts" 1 (some "a"))) :=
  className_collision_only_by_hash_coincidence "css-" "a.ts" 0 1
    (some "a") (some "a") (Or.inl (by decide))

/-- C7: the generated class name is a deterministic function of the
slash-normalized project-relative path, the declaration index, and the
optional variable name: equal triples give the identical identifier string
(`generateClassName` is a pure function, so this also holds across
invocations and processes). -/
theorem generateClassName_deterministic (pfx p₁ p₂ : String) (i₁ i₂ : Nat)
    (n₁ n₂ : Option String) (hp : normalizeSlashes p₁ = normalizeSlashes p₂)
    (hi : i₁ = i₂) (hn : n₁ = n₂) :
    generateClassName pfx (normalizeSlashes p₁) i₁ n₁ =
      generateClassName pfx (normalizeSlashes p₂) i₂ n₂ := by
  rw [hp, hi, hn]

/-- Witness for C7: a Windows-style and a Unix-style spelling of the same
relative path normalize alike and give the same class name. -/
theorem generateClassName_deterministic_witness :
    generateClassName "css-" (normalizeSlashes "src\\btn.ts") 0 (some "a") =
      generateClassName "css-" (normalizeSlashes "src/btn.ts") 0 (some "a") :=
  generateClassName_deterministic "css-" "src\\btn.ts" "src/btn.ts" 0 0
    (some "a") (some "a") (by decide) rfl rfl

/-! ### Map lookup helpers -/

lemma mapGet_set_self {α : Type} (m : List (String × α)) (k : String) (v : α) :
    mapGet (mapSet m k v) k = some v := by
  simp [mapGet, mapSet, List.lookup]

lemma mapGet_eq_none {α : Type} (m : List (String × α)) (k : String)
    (h : ∀ kv ∈ m, kv.1 ≠ k) : mapGet m k = none := by
  induction m with
  | nil => rfl
  | cons kv t ih =>
    have h1 : (k == kv.1) = false :=
      beq_eq_false_iff_ne.mpr fun he => h kv (List.mem_cons_self kv t) he.symm
    simp only [mapGet, List.lookup, h1]
    exact ih fun kv2 hm => h kv2 (List.mem_cons_of_mem kv hm)

lemma mapGet_mem {α : Type} (m : List (String × α)) (k : String) (v : α)
    (h : mapGet m k = some v) : (k, v) ∈ m := by
  induction m with
  | nil => simp [mapGet, List.lookup] at h
  | cons kv t ih =>
    simp only [mapGet, List.lookup] at h
    split at h
    · next hbe =>
        obtain rfl : k = kv.1 := eq_of_beq hbe
        obtain rfl : v = kv.2 := by exact (Option.some.injEq ..).mp h.symm
        exact List.mem_cons_self kv t
    · exact List.mem_cons_of_mem kv (ih h)

/-! ### C8: cache discipline of `parseFile` -/

/-- C8: the per-path analysis cache is consulted only when no fresh source
text is supplied; when text is supplied, `parseFile` performs a fresh
analysis of exactly that text (regardless of any cache entry) and the result
supersedes the cache entry for that path.  So within one build a cached
analysis is never returned for supplied text that differs from what it was
computed from. -/
theorem parseFile_cache_discipline (env : Env) (st : PState) (p : String)
    (c : List Char) :
    (∀ info, mapGet st.parsedFileInfoCache p = some info →
      parseFile env st p none = (info, st)) ∧
    (parseFile env st p (some c)).1 =
      analyzeParseResult env.classPrefix (normalizeSlashes (env.relativeOf p))
        (env.parseSync p c) ∧
    mapGet (parseFile env st p (some c)).2.parsedFileInfoCache p =
      some (parseFile env st p (some c)).1 := by
  refine ⟨fun info h => ?_, ?_, ?_⟩
  · unfold parseFile
    rw [h]
  · rfl
  · show mapGet (mapSet st.parsedFileInfoCache p _) p = _
    rw [mapGet_set_self]
    rfl

/-- Witness for C8 on a concrete host and state. -/
theorem parseFile_cache_discipline_witness :
    parseFile trivialEnv cachedState "f.ts" none = (emptyInfo, cachedState) ∧
    (parseFile trivialEnv cachedState "f.ts" (some "x".data)).1 =
      analyzeParseResult trivialEnv.classPrefix
        (normalizeSlashes (trivialEnv.relativeOf "f.ts"))
        (trivialEnv.parseSync "f.ts" "x".data) ∧
    mapGet (parseFile trivialEnv cachedState "f.ts"
        (some "x".data)).2.parsedFileInfoCache "f.ts" =
      some (parseFile trivialEnv cachedState "f.ts" (some "x".data)).1 := by
  obtain ⟨h1, h2, h3⟩ :=
    parseFile_cache_discipline trivialEnv cachedState "f.ts" "x".data
  exact ⟨h1 emptyInfo rfl, h2, h3⟩

/-! ### C6: one-hop resolution and re-exports -/

lemma analyzeParseResult_exports (pfx rel : String) (pr : ParseResult) :
    (analyzeParseResult pfx rel pr).exportNameToValueMap =
      (pr.events.foldl (applyEvent pfx rel (collectExports pr.staticExports))
        ⟨[], [], [], []⟩).exportNameToValueMap := rfl

lemma mem_foldl_exportStep (entries : List ExportEntry) :
    ∀ acc kv, kv ∈ entries.foldl exportStep acc →
      kv ∈ acc ∨ ∃ e ∈ entries, e.isReExport = false ∧
        e.exportName = some kv.2 ∧ e.localName = some kv.1 := by
  induction entries with
  | nil => exact fun acc kv h => Or.inl h
  | cons e es ih =>
    intro acc kv h
    rw [List.foldl_cons] at h
    rcases ih (exportStep acc e) kv h with h1 | ⟨e2, he2, hc⟩
    · unfold exportStep at h1
      by_cases hre : e.isReExport
      · rw [if_pos hre] at h1
        exact Or.inl h1
      · rw [if_neg hre] at h1
        split at h1
        · next en ln hen hln =>
            rcases List.mem_cons.mp h1 with heq | hm
            · subst heq
              exact Or.inr ⟨e, List.mem_cons_self e es,
                Bool.eq_false_iff.mpr hre, by rw [hen], by rw [hln]⟩
            · exact Or.inl hm
        · exact Or.inl h1
    · exact Or.inr ⟨e2, List.mem_cons_of_mem e he2, hc⟩

lemma mem_collectExports (exps : List StaticExport) :
    ∀ kv ∈ collectExports exps, ∃ se ∈ exps, ∃ e ∈ se.entries,
      e.isReExport = false ∧ e.exportName = some kv.2 ∧
        e.localName = some kv.1 := by
  have main : ∀ (l : List StaticExport) acc kv,
      kv ∈ l.foldl (fun m ex => ex.entries.foldl exportStep m) acc →
      kv ∈ acc ∨ ∃ se ∈ l, ∃ e ∈ se.entries, e.isReExport = false ∧
        e.exportName = some kv.2 ∧ e.localName = some kv.1 := by
    intro l
    induction l with
    | nil => exact fun acc kv h => Or.inl h
    | cons se ses ih =>
      intro acc kv h
      rw [List.foldl_cons] at h
      rcases ih _ kv h with h1 | ⟨se2, hse2, hc⟩
      · rcases mem_foldl_exportStep se.entries acc kv h1 with h2 | ⟨e, he, hc⟩
        · exact Or.inl h2
        · exact Or.inr ⟨se, List.mem_cons_self se ses, e, he, hc⟩
      · exact Or.inr ⟨se2, List.mem_cons_of_mem se hse2, hc⟩
  intro kv h
  rcases main exps [] kv h with h1 | h1
  · simp at h1
  · exact h1

lemma recordIdentifierWithValue_export_keys (lte : List (String × String))
    (st : AnalyzeState) (n v : String)
    (h : ∀ kv ∈ st.exportNameToValueMap, ∃ kv2 ∈ lte, kv2.2 = kv.1) :
    ∀ kv ∈ (recordIdentifierWithValue lte st n v).exportNameToValueMap,
      ∃ kv2 ∈ lte, kv2.2 = kv.1 := by
  unfold recordIdentifierWithValue
  cases hg : mapGet lte n with
  | none => exact h
  | some en =>
    intro kv hkv
    rcases List.mem_cons.mp hkv with heq | hm
    · subst heq
      exact ⟨(n, en), mapGet_mem lte n en hg, rfl⟩
    · exact h kv hm

lemma handleTaggedTemplate_export_keys (pfx rel : String)
    (lte : List (String × String)) (nm : Option String) (node : TTNode)
    (st : AnalyzeState)
    (h : ∀ kv ∈ st.exportNameToValueMap, ∃ kv2 ∈ lte, kv2.2 = kv.1) :
    ∀ kv ∈ (handleTaggedTemplate pfx rel lte nm node st).exportNameToValueMap,
      ∃ kv2 ∈ lte, kv2.2 = kv.1 := by
  unfold handleTaggedTemplate
  split
  · exact h
  · cases nm with
    | some n => exact recordIdentifierWithValue_export_keys lte _ n _ h
    | none => exact h

lemma applyEvent_export_keys (pfx rel : String) (lte : List (String × String))
    (st : AnalyzeState) (ev : VisitEvent)
    (h : ∀ kv ∈ st.exportNameToValueMap, ∃ kv2 ∈ lte, kv2.2 = kv.1) :
    ∀ kv ∈ (applyEvent pfx rel lte st ev).exportNameToValueMap,
      ∃ kv2 ∈ lte, kv2.2 = kv.1 := by
  cases ev with
  | varDecl vd =>
    unfold applyEvent
    rcases vd with ⟨idName, init⟩
    cases init with
    | none => cases idName <;> exact h
    | some i =>
      cases idName with
      | none => cases i <;> exact h
      | some n =>
        cases i with
        | tagged tt => exact handleTaggedTemplate_export_keys pfx rel lte _ tt _ h
        | lit v => exact recordIdentifierWithValue_export_keys lte st n v h
        | otherInit => exact h
  | tagged tt =>
    simp only [applyEvent]
    split
    · exact h
    · exact handleTaggedTemplate_export_keys pfx rel lte none tt st h

lemma analyze_export_keys (pfx rel : String) (pr : ParseResult) :
    ∀ kv ∈ (analyzeParseResult pfx rel pr).exportNameToValueMap,
      ∃ kv2 ∈ collectExports pr.staticExports, kv2.2 = kv.1 := by
  rw [analyzeParseResult_exports]
  generalize collectExports pr.staticExports = lte
  have main : ∀ (evs : List VisitEvent) (st : AnalyzeState),
      (∀ kv ∈ st.exportNameToValueMap, ∃ kv2 ∈ lte, kv2.2 = kv.1) →
      ∀ kv ∈ (evs.foldl (applyEvent pfx rel lte) st).exportNameToValueMap,
        ∃ kv2 ∈ lte, kv2.2 = kv.1 := by
    intro evs
    induction evs with
    | nil => exact fun st h => h
    | cons ev evs ih =>
      intro st h
      rw [List.foldl_cons]
      exact ih _ (applyEvent_export_keys pfx rel lte st ev h)
  exact main pr.events ⟨[], [], [], []⟩ (by intro kv h; simp at h)

/-- C6: cross-file resolution of an imported identifier is one-hop.  When an
identifier is not local, is imported, and the host resolves its module, the
result is exactly a lookup of the exported name in the resolved file's
`exportNameToValueMap` — nothing else.  And if every export entry of that
name in the target file is a re-export, the lookup yields `none` (the
analysis skips re-export entries), so resolution treats it as absent and
never recurses through the chain. -/
theorem resolveValue_one_hop (env : Env) (st : PState) (info : ParsedFileInfo)
    (filePath name source imported rid : String)
    (hl : mapGet info.localIdentifiers name = none)
    (hi : mapGet info.importedIdentifiers name = some (source, imported))
    (hr : env.resolveId source filePath = some rid) :
    resolveValue env st info filePath name =
      (mapGet (parseFile env st rid none).1.exportNameToValueMap imported,
        (parseFile env st rid none).2) ∧
    (mapGet st.parsedFileInfoCache rid = none →
      (∀ se ∈ (env.parseSync rid (env.readFile rid)).staticExports,
        ∀ e ∈ se.entries, e.exportName = some imported → e.isReExport = true) →
      (resolveValue env st info filePath name).1 = none) := by
  have h1 : resolveValue env st info filePath name =
      (mapGet (parseFile env st rid none).1.exportNameToValueMap imported,
        (parseFile env st rid none).2) := by
    unfold resolveValue
    simp only [hl, hi, hr]
  refine ⟨h1, fun hc hre => ?_⟩
  rw [h1]
  show mapGet (parseFile env st rid none).1.exportNameToValueMap imported = none
  have h2 : (parseFile env st rid none).1 =
      analyzeParseResult env.classPrefix (normalizeSlashes (env.relativeOf rid))
        (env.parseSync rid (env.readFile rid)) := by
    unfold parseFile
    simp only [hc]
  rw [h2]
  apply mapGet_eq_none
  intro kv hkv hk
  rcases analyze_export_keys _ _ _ kv hkv with ⟨kv2, hkv2, hv⟩
  rcases mem_collectExports _ kv2 hkv2 with ⟨se, hse, e, he, hfalse, hen, _⟩
  have hT := hre se hse e he (by rw [hen, hv, hk])
  rw [hfalse] at hT
  exact Bool.false_ne_true hT

/-- Witness for C6 on a concrete host: `main.ts` imports `red` from `./lib`,
which resolves to `lib.ts` whose only export of `red` is a re-export; the
lookup is the one-hop export-map lookup and yields `none`. -/
theorem resolveValue_one_hop_witness :
    resolveValue oneHopEnv ⟨[], []⟩ importerInfo "main.ts" "red" =
      (mapGet (parseFile oneHopEnv ⟨[], []⟩ "lib.ts"
          none).1.exportNameToValueMap "red",
        (parseFile oneHopEnv ⟨[], []⟩ "lib.ts" none).2) ∧
    (resolveValue oneHopEnv ⟨[], []⟩ importerInfo "main.ts" "red").1 = none := by
  obtain ⟨h1, h2⟩ := resolveValue_one_hop oneHopEnv ⟨[], []⟩ importerInfo
    "main.ts" "red" "./lib" "red" "lib.ts" rfl rfl rfl
  exact ⟨h1, h2 rfl (by decide)⟩

/-! ### C4: descending-order splicing equals direct substitution -/

lemma spliceOne_append (P Q : List Char) (r : Replacement)
    (hlt : r.start < r.stop) (hb : r.stop ≤ P.length) :
    spliceOne (P ++ Q) r = spliceOne P r ++ Q := by
  unfold spliceOne
  rw [List.take_append_of_le_length (by omega),
    List.drop_append_of_le_length hb]
  simp [List.append_assoc]

lemma spliceOne_length (P : List Char) (r : Replacement)
    (h : r.start ≤ P.length) : r.start ≤ (spliceOne P r).length := by
  unfold spliceOne
  simp [List.length_take, List.length_drop]
  omega

lemma foldl_spliceOne_append (l : List Replacement) :
    ∀ P Q : List Char,
      l.Pairwise (fun a b => b.stop ≤ a.start) →
      (∀ x ∈ l, x.start < x.stop) →
      (∀ x ∈ l, x.stop ≤ P.length) →
      l.foldl spliceOne (P ++ Q) = l.foldl spliceOne P ++ Q := by
  induction l with
  | nil => intro P Q _ _ _; rfl
  | cons x t ih =>
    intro P Q hp hlt hb
    rw [List.foldl_cons, List.foldl_cons,
      spliceOne_append P Q x (hlt x (List.mem_cons_self x t))
        (hb x (List.mem_cons_self x t))]
    apply ih
    · exact hp.of_cons
    · exact fun y hy => hlt y (List.mem_cons_of_mem x hy)
    · intro y hy
      have h1 : y.stop ≤ x.start := (List.pairwise_cons.mp hp).1 y hy
      have h2 : x.start ≤ (spliceOne P x).length :=
        spliceOne_length P x
          (le_trans (le_of_lt (hlt x (List.mem_cons_self x t)))
            (hb x (List.mem_cons_self x t)))
      omega

lemma substituteFrom_append_last (xs : List Replacement) :
    ∀ (code : List Char) (pos : Nat) (r : Replacement),
      (∀ x ∈ xs, x.stop ≤ r.start) → (∀ x ∈ xs, x.start < x.stop) →
      substituteFrom code pos (xs ++ [r]) =
        substituteFrom (code.take r.start) pos xs ++
          '\'' :: (r.className.data ++ ['\'']) ++ code.drop r.stop := by
  induction xs with
  | nil =>
    intro code pos r _ _
    simp [substituteFrom, List.append_assoc]
  | cons x t ih =>
    intro code pos r hstop hlt
    have hxr : x.stop ≤ r.start := hstop x (List.mem_cons_self x t)
    have hxl : x.start < x.stop := hlt x (List.mem_cons_self x t)
    rw [List.cons_append]
    show (code.take x.start).drop pos ++ _ ++ substituteFrom code x.stop (t ++ [r]) = _
    rw [ih code x.stop r (fun y hy => hstop y (List.mem_cons_of_mem x hy))
        (fun y hy => hlt y (List.mem_cons_of_mem x hy))]
    conv_rhs => rw [substituteFrom]
    rw [List.take_take, Nat.min_eq_left (by omega)]
    simp [List.append_assoc]

lemma foldl_spliceOne_reverse (asc : List Replacement) :
    ∀ code : List Char,
      asc.Pairwise (fun a b => a.stop ≤ b.start) →
      (∀ x ∈ asc, x.start < x.stop) →
      (∀ x ∈ asc, x.stop ≤ code.length) →
      asc.reverse.foldl spliceOne code = substituteFrom code 0 asc := by
  induction asc using List.reverseRecOn with
  | nil => intro code _ _ _; rfl
  | append_singleton xs r ih =>
    intro code hp hlt hb
    have hstop : ∀ x ∈ xs, x.stop ≤ r.start := fun x hx =>
      (List.pairwise_append.mp hp).2.2 x hx r (List.mem_singleton_self r)
    have hrb : r.stop ≤ code.length :=
      hb r (List.mem_append_right xs (List.mem_singleton_self r))
    have hrl : r.start < r.stop :=
      hlt r (List.mem_append_right xs (List.mem_singleton_self r))
    have hxs_lt : ∀ x ∈ xs, x.start < x.stop := fun x hx =>
      hlt x (List.mem_append_left _ hx)
    rw [List.reverse_append, List.reverse_singleton, List.singleton_append,
      List.foldl_cons]
    have hsplice : spliceOne code r =
        code.take r.start ++
          ('\'' :: (r.className.data ++ ['\'']) ++ code.drop r.stop) := by
      unfold spliceOne
      simp [List.append_assoc]
    rw [hsplice]
    have hrevp : xs.reverse.Pairwise (fun a b => b.stop ≤ a.start) := by
      rw [List.pairwise_reverse]
      exact (List.pairwise_append.mp hp).1
    have hlen : ∀ x ∈ xs.reverse, x.stop ≤ (code.take r.start).length := by
      intro x hx
      rw [List.length_take]
      have h1 := hstop x (List.mem_reverse.mp hx)
      have h2 := hxs_lt x (List.mem_reverse.mp hx)
      omega
    rw [foldl_spliceOne_append xs.reverse (code.take r.start) _ hrevp
        (fun x hx => hxs_lt x (List.mem_reverse.mp hx)) hlen]
    rw [ih (code.take r.start) (List.pairwise_append.mp hp).1 hxs_lt
        (fun x hx => by
          rw [List.length_take]
          have h1 := hstop x hx
          have h2 := hxs_lt x hx
          omega)]
    rw [substituteFrom_append_last xs code 0 r hstop hxs_lt]
    simp [List.append_assoc]

lemma sorted_desc_eq (l₁ : List Replacement) :
    ∀ l₂, l₁.Perm l₂ →
      l₁.Pairwise (fun a b : Replacement => b.start ≤ a.start) →
      l₂.Pairwise (fun a b : Replacement => b.start ≤ a.start) →
      l₁.Pairwise (fun a b : Replacement => a.start ≠ b.start) →
      l₁ = l₂ := by
  induction l₁ with
  | nil =>
    intro l₂ hperm _ _ _
    exact (hperm.symm.eq_nil).symm ▸ rfl
  | cons a t ih =>
    intro l₂ hperm hs₁ hs₂ hnd
    cases l₂ with
    | nil => exact absurd hperm.eq_nil (by simp)
    | cons b t₂ =>
      have hab : a = b := by
        by_contra hne
        have haim : a ∈ b :: t₂ := hperm.mem_iff.mp (List.mem_cons_self a t)
        have hbim : b ∈ a :: t := hperm.mem_iff.mpr (List.mem_cons_self b t₂)
        have ha2 : a ∈ t₂ := by
          rcases List.mem_cons.mp haim with h | h
          · exact absurd h hne
          · exact h
        have hb1 : b ∈ t := by
          rcases List.mem_cons.mp hbim with h | h
          · exact absurd h.symm hne
          · exact h
        have h1 : a.start ≤ b.start := (List.pairwise_cons.mp hs₂).1 a ha2
        have h2 : b.start ≤ a.start := (List.pairwise_cons.mp hs₁).1 b hb1
        have h3 : a.start ≠ b.start := (List.pairwise_cons.mp hnd).1 b hb1
        omega
      subst hab
      rw [ih t₂ hperm.cons_inv (List.pairwise_cons.mp hs₁).2
        (List.pairwise_cons.mp hs₂).2 (List.pairwise_cons.mp hnd).2]

/-- C4: for any set of non-overlapping in-bounds replacements, the program's
descending-start splicing (`applyReplacements`, src/index.ts:375-384)
produces exactly the same text — same length and content — as direct
substitution of each quoted class-name literal at its recorded range in the
original text (`substituteAll`, modelled from the spec). -/
theorem applyReplacements_eq_substituteAll (code : List Char)
    (rs : List Replacement)
    (hbounds : ∀ r ∈ rs, r.start < r.stop ∧ r.stop ≤ code.length)
    (hdisj : rs.Pairwise (fun a b => a.stop ≤ b.start ∨ b.stop ≤ a.start)) :
    applyReplacements code rs = substituteAll code rs := by
  unfold applyReplacements substituteAll
  have pdesc : (rs.mergeSort fun a b => decide (b.start ≤ a.start)).Pairwise
      (fun a b : Replacement => b.start ≤ a.start) := by
    have h1 : (rs.mergeSort fun a b : Replacement =>
        decide (b.start ≤ a.start)).Pairwise
        (fun a b : Replacement => decide (b.start ≤ a.start) = true) :=
      List.sorted_mergeSort
        (by
          intro a b c hab hbc
          exact decide_eq_true (Nat.le_trans (of_decide_eq_true hbc)
            (of_decide_eq_true hab)))
        (by
          intro a b
          rcases Nat.le_total b.start a.start with h | h <;>
            simp [decide_eq_true h])
        rs
    exact h1.imp fun h => of_decide_eq_true h
  have pasc : (rs.mergeSort fun a b => decide (a.start ≤ b.start)).Pairwise
      (fun a b : Replacement => a.start ≤ b.start) := by
    have h1 : (rs.mergeSort fun a b : Replacement =>
        decide (a.start ≤ b.start)).Pairwise
        (fun a b : Replacement => decide (a.start ≤ b.start) = true) :=
      List.sorted_mergeSort
        (by
          intro a b c hab hbc
          exact decide_eq_true (Nat.le_trans (of_decide_eq_true hab)
            (of_decide_eq_true hbc)))
        (by
          intro a b
          rcases Nat.le_total a.start b.start with h | h <;>
            simp [decide_eq_true h])
        rs
    exact h1.imp fun h => of_decide_eq_true h
  have hpasc := List.mergeSort_perm rs fun a b => decide (a.start ≤ b.start)
  have hpdesc := List.mergeSort_perm rs fun a b => decide (b.start ≤ a.start)
  have hnd : rs.Pairwise (fun a b : Replacement => a.start ≠ b.start) := by
    refine hdisj.imp_of_mem ?_
    intro a b ha hb hr heq
    have h1 := hbounds a ha
    have h2 := hbounds b hb
    rcases hr with h | h <;> omega
  have hsymm : Symmetric (fun a b : Replacement => a.start ≠ b.start) :=
    fun a b h => h.symm
  have hdasc : (rs.mergeSort fun a b => decide (a.start ≤ b.start)).Pairwise
      (fun a b => a.stop ≤ b.start ∨ b.stop ≤ a.start) := by
    have hsd : Symmetric (fun a b : Replacement =>
        a.stop ≤ b.start ∨ b.stop ≤ a.start) := fun a b h => h.symm
    exact ((hpasc.pairwise_iff fun hh => hsd hh).mpr hdisj)
  have hchain : (rs.mergeSort fun a b => decide (a.start ≤ b.start)).Pairwise
      (fun a b => a.stop ≤ b.start) := by
    refine (pasc.and hdasc).imp_of_mem ?_
    intro a b ha hb hr
    have h2 := hbounds b (hpasc.mem_iff.mp hb)
    rcases hr.2 with h | h
    · exact h
    · omega
  have heq : (rs.mergeSort fun a b => decide (b.start ≤ a.start)) =
      (rs.mergeSort fun a b => decide (a.start ≤ b.start)).reverse := by
    apply sorted_desc_eq
    · exact hpdesc.trans (hpasc.symm.trans (List.reverse_perm _).symm)
    · exact pdesc
    · rw [List.pairwise_reverse]
      exact pasc
    · exact (hpdesc.pairwise_iff (fun hh => hsymm hh)).mpr hnd
  rw [heq]
  exact foldl_spliceOne_reverse _ code hchain
    (fun x hx => (hbounds x (hpasc.mem_iff.mp hx)).1)
    (fun x hx => (hbounds x (hpasc.mem_iff.mp hx)).2)

/-- Witness for C4: two concrete non-overlapping replacements in a ten-
character text. -/
theorem applyReplacements_eq_substituteAll_witness :
    (∀ r ∈ [Replacement.mk 1 3 "x", Replacement.mk 5 8 "y"],
      r.start < r.stop ∧ r.stop ≤ ("0123456789".data).length) ∧
    applyReplacements "0123456789".data
        [Replacement.mk 1 3 "x", Replacement.mk 5 8 "y"] =
      substituteAll "0123456789".data
        [Replacement.mk 1 3 "x", Replacement.mk 5 8 "y"] :=
  ⟨by decide,
   applyReplacements_eq_substituteAll "0123456789".data
     [Replacement.mk 1 3 "x", Replacement.mk 5 8 "y"] (by decide)
     (by decide)⟩

/-! ### C9: declaration count equals the number of css-tagged nodes -/

lemma recordIdentifierWithValue_seen (lte : List (String × String))
    (st : AnalyzeState) (n v : String) :
    (recordIdentifierWithValue lte st n v).seenFromVarDecl =
      st.seenFromVarDecl := by
  unfold recordIdentifierWithValue
  cases mapGet lte n <;> rfl

lemma handleTaggedTemplate_seen (pfx rel : String)
    (lte : List (String × String)) (nm : Option String) (node : TTNode)
    (st : AnalyzeState) :
    (handleTaggedTemplate pfx rel lte nm node st).seenFromVarDecl =
      st.seenFromVarDecl := by
  unfold handleTaggedTemplate
  split
  · rfl
  · cases nm with
    | some n => rw [recordIdentifierWithValue_seen]
    | none => rfl

lemma handleTaggedTemplate_decl_len (pfx rel : String)
    (lte : List (String × String)) (nm : Option String) (node : TTNode)
    (st : AnalyzeState) :
    (handleTaggedTemplate pfx rel lte nm node st).declarations.length =
      st.declarations.length + (if node.tagIsCss then 1 else 0) := by
  unfold handleTaggedTemplate
  split
  · next h =>
    have hf : node.tagIsCss = false := by simpa using h
    rw [hf]
    simp
  · next h =>
    have hcss : node.tagIsCss = true := by simpa using h
    rw [hcss]
    cases nm with
    | some n => rw [recordIdentifierWithValue_decls]; simp
    | none => simp

lemma count_tagged_eq_one (evs : List VisitEvent) (tt : TTNode)
    (h1 : TaggedEventsDistinct evs) (hm : VisitEvent.tagged tt ∈ evs) :
    evs.count (VisitEvent.tagged tt) = 1 := by
  induction evs with
  | nil => cases hm
  | cons e rest ih =>
    rcases List.mem_cons.mp hm with heq | hmem
    · subst heq
      rw [List.count_cons_self]
      have hrest : VisitEvent.tagged tt ∉ rest := by
        intro hr
        exact ((List.pairwise_cons.mp h1).1 (VisitEvent.tagged tt) hr)
          tt tt rfl rfl rfl
      rw [List.count_eq_zero.mpr hrest]
    · have hne : VisitEvent.tagged tt ≠ e := by
        intro he
        exact ((List.pairwise_cons.mp h1).1 (VisitEvent.tagged tt) hmem)
          tt tt he.symm rfl rfl
      rw [List.count_cons_of_ne hne]
      exact ih (List.Pairwise.of_cons h1) hmem

lemma skipCount_cons (S : List TTNode) (ev : VisitEvent)
    (evs : List VisitEvent) :
    skipCount S (ev :: evs) =
      (if isSkippedCssEvent S ev then 1 else 0) + skipCount S evs := by
  by_cases h : isSkippedCssEvent S ev <;>
    simp [skipCount, List.filter_cons, h, Nat.add_comm]

lemma cssTaggedCount_cons (ev : VisitEvent) (evs : List VisitEvent) :
    cssTaggedCount (ev :: evs) =
      (if isCssTaggedEvent ev then 1 else 0) + cssTaggedCount evs := by
  by_cases h : isCssTaggedEvent ev <;>
    simp [cssTaggedCount, List.filter_cons, h, Nat.add_comm]

lemma skipCount_cons_seen (tt : TTNode) (evs : List VisitEvent) :
    ∀ S : List TTNode, ¬(S.contains tt = true) →
      skipCount (tt :: S) evs = skipCount S evs +
        (if tt.tagIsCss then evs.count (VisitEvent.tagged tt) else 0) := by
  induction evs with
  | nil =>
    intro S _
    by_cases hcss : tt.tagIsCss <;> simp [skipCount, hcss]
  | cons ev rest ih =>
    intro S h
    rw [skipCount_cons, skipCount_cons]
    cases ev with
    | varDecl vd =>
      have h1 : isSkippedCssEvent (tt :: S) (.varDecl vd) = false := rfl
      have h2 : isSkippedCssEvent S (.varDecl vd) = false := rfl
      have h3 : List.count (VisitEvent.tagged tt)
          (VisitEvent.varDecl vd :: rest) =
          List.count (VisitEvent.tagged tt) rest :=
        List.count_cons_of_ne (fun hx => VisitEvent.noConfusion hx) rest
      rw [h1, h2, h3, ih S h]
      simp [Nat.add_assoc]
    | tagged tn =>
      by_cases he : tn = tt
      · subst he
        have hmemS : tn ∉ S := by simpa using h
        have hc1 : isSkippedCssEvent (tn :: S) (.tagged tn) = tn.tagIsCss := by
          simp [isSkippedCssEvent]
        have hc2 : isSkippedCssEvent S (.tagged tn) = false := by
          simp [isSkippedCssEvent, hmemS]
        rw [hc1, hc2, List.count_cons_self, ih S h]
        by_cases hcss : tn.tagIsCss <;> simp [hcss] <;> omega
      · have hc1 : isSkippedCssEvent (tt :: S) (.tagged tn) =
            isSkippedCssEvent S (.tagged tn) := by
          simp [isSkippedCssEvent, he]
        have h3 : List.count (VisitEvent.tagged tt)
            (VisitEvent.tagged tn :: rest) =
            List.count (VisitEvent.tagged tt) rest :=
          List.count_cons_of_ne
            (fun hx => he (VisitEvent.tagged.inj hx).symm) rest
        rw [hc1, h3, ih S h]
        simp [Nat.add_assoc]

lemma skipCount_empty_seen (evs : List VisitEvent) : skipCount [] evs = 0 := by
  induction evs with
  | nil => rfl
  | cons ev rest ih =>
    rw [skipCount_cons, ih]
    have h : isSkippedCssEvent [] ev = false := by
      cases ev <;> simp [isSkippedCssEvent]
    rw [h]
    rfl

lemma declInitsFollow_tail (ev : VisitEvent) (evs : List VisitEvent)
    (h : DeclInitsFollow (ev :: evs)) : DeclInitsFollow evs :=
  fun l₁ n tt l₂ he => h (ev :: l₁) n tt l₂ (by rw [he]; rfl)

lemma analyze_count_main (pfx rel : String) (lte : List (String × String)) :
    ∀ (evs : List VisitEvent) (st : AnalyzeState),
      TaggedEventsDistinct evs → DeclInitsFollow evs → DeclInitsDistinct evs →
      (∀ n tt, VisitEvent.varDecl ⟨some n, some (.tagged tt)⟩ ∈ evs →
        ¬(st.seenFromVarDecl.contains tt = true)) →
      (evs.foldl (applyEvent pfx rel lte) st).declarations.length +
          skipCount st.seenFromVarDecl evs =
        st.declarations.length + cssTaggedCount evs := by
  intro evs
  induction evs with
  | nil =>
    intro st _ _ _ _
    simp [skipCount, cssTaggedCount]
  | cons ev rest ih =>
    intro st h1 h2 h3 h4
    rw [List.foldl_cons, skipCount_cons, cssTaggedCount_cons]
    cases ev with
    | tagged tt =>
      have hct : isCssTaggedEvent (VisitEvent.tagged tt) = tt.tagIsCss := rfl
      by_cases hc : st.seenFromVarDecl.contains tt = true
      · have happ : applyEvent pfx rel lte st (VisitEvent.tagged tt) = st := by
          simp only [applyEvent]
          rw [if_pos hc]
        rw [happ]
        have hih := ih st (List.Pairwise.of_cons h1) (declInitsFollow_tail _ _ h2)
          (List.Pairwise.of_cons h3)
          (fun n t hm => h4 n t (List.mem_cons_of_mem _ hm))
        have hsk : isSkippedCssEvent st.seenFromVarDecl (VisitEvent.tagged tt) =
            tt.tagIsCss := by
          have hmem : tt ∈ st.seenFromVarDecl := by simpa using hc
          simp [isSkippedCssEvent, hmem]
        rw [hsk, hct]
        by_cases hcss : tt.tagIsCss <;> simp [hcss] <;> omega
      · have happ : applyEvent pfx rel lte st (VisitEvent.tagged tt) =
            handleTaggedTemplate pfx rel lte none tt st := by
          simp only [applyEvent]
          rw [if_neg hc]
        rw [happ]
        have hih : (rest.foldl (applyEvent pfx rel lte)
              (handleTaggedTemplate pfx rel lte none tt st)).declarations.length +
            skipCount st.seenFromVarDecl rest =
            (st.declarations.length + (if tt.tagIsCss then 1 else 0)) +
              cssTaggedCount rest := by
          have hraw := ih (handleTaggedTemplate pfx rel lte none tt st)
            (List.Pairwise.of_cons h1) (declInitsFollow_tail _ _ h2)
            (List.Pairwise.of_cons h3)
            (fun n t hm => by
              rw [handleTaggedTemplate_seen]
              exact h4 n t (List.mem_cons_of_mem _ hm))
          rw [handleTaggedTemplate_decl_len, handleTaggedTemplate_seen] at hraw
          exact hraw
        have hsk : isSkippedCssEvent st.seenFromVarDecl (VisitEvent.tagged tt) =
            false := by
          have hmem : tt ∉ st.seenFromVarDecl := by simpa using hc
          simp [isSkippedCssEvent, hmem]
        rw [hsk, hct]
        by_cases hcss : tt.tagIsCss <;> simp [hcss] at hih ⊢ <;> omega
    | varDecl vd =>
      rcases vd with ⟨idName, init⟩
      have hskipev : isSkippedCssEvent st.seenFromVarDecl
          (VisitEvent.varDecl ⟨idName, init⟩) = false := rfl
      have hcssev : isCssTaggedEvent (VisitEvent.varDecl ⟨idName, init⟩) =
          false := rfl
      rw [hskipev, hcssev]
      have htail := fun (stx : AnalyzeState)
          (hx : ∀ n tt, VisitEvent.varDecl ⟨some n, some (.tagged tt)⟩ ∈ rest →
            ¬(stx.seenFromVarDecl.contains tt = true)) =>
        ih stx (List.Pairwise.of_cons h1) (declInitsFollow_tail _ _ h2)
          (List.Pairwise.of_cons h3) hx
      cases init with
      | none =>
        cases idName with
        | none =>
          have hih := htail st (fun n t hm => h4 n t (List.mem_cons_of_mem _ hm))
          simpa using hih
        | some nm =>
          have hih := htail st (fun n t hm => h4 n t (List.mem_cons_of_mem _ hm))
          simpa using hih
      | some i =>
        cases idName with
        | none =>
          have hih := htail st (fun n t hm => h4 n t (List.mem_cons_of_mem _ hm))
          cases i <;> simpa using hih
        | some nm =>
          cases i with
          | lit v =>
            have happ : applyEvent pfx rel lte st
                (VisitEvent.varDecl ⟨some nm, some (.lit v)⟩) =
                recordIdentifierWithValue lte st nm v := rfl
            rw [happ]
            have hih : (rest.foldl (applyEvent pfx rel lte)
                  (recordIdentifierWithValue lte st nm v)).declarations.length +
                skipCount st.seenFromVarDecl rest =
                st.declarations.length + cssTaggedCount rest := by
              have hraw := htail (recordIdentifierWithValue lte st nm v)
                (fun n t hm => by
                  rw [recordIdentifierWithValue_seen]
                  exact h4 n t (List.mem_cons_of_mem _ hm))
              rw [recordIdentifierWithValue_decls, recordIdentifierWithValue_seen]
                at hraw
              exact hraw
            simpa using hih
          | otherInit =>
            have hih := htail st (fun n t hm => h4 n t (List.mem_cons_of_mem _ hm))
            simpa using hih
          | tagged tt =>
            have happ : applyEvent pfx rel lte st
                (VisitEvent.varDecl ⟨some nm, some (.tagged tt)⟩) =
                handleTaggedTemplate pfx rel lte (some nm) tt
                  { st with seenFromVarDecl := tt :: st.seenFromVarDecl } := rfl
            rw [happ]
            have hmem : VisitEvent.tagged tt ∈ rest := h2 [] nm tt rest rfl
            have hcnt : rest.count (VisitEvent.tagged tt) = 1 :=
              count_tagged_eq_one rest tt (List.Pairwise.of_cons h1) hmem
            have hns : ¬(st.seenFromVarDecl.contains tt = true) :=
              h4 nm tt (List.mem_cons_self _ _)
            have h4x : ∀ n t, VisitEvent.varDecl ⟨some n, some (.tagged t)⟩ ∈ rest →
                ¬((tt :: st.seenFromVarDecl).contains t = true) := by
              intro n t hm hcon
              have hne : tt ≠ t :=
                (List.pairwise_cons.mp h3).1 _ hm nm n tt t rfl rfl
              have hnt : ¬(st.seenFromVarDecl.contains t = true) :=
                h4 n t (List.mem_cons_of_mem _ hm)
              rw [List.contains_cons] at hcon
              rcases (by simpa using hcon : t = tt ∨
                  st.seenFromVarDecl.contains t = true) with hx | hx
              · exact hne hx.symm
              · exact hnt hx
            have hih : (rest.foldl (applyEvent pfx rel lte)
                  (handleTaggedTemplate pfx rel lte (some nm) tt
                    { st with seenFromVarDecl := tt :: st.seenFromVarDecl
                    })).declarations.length +
                skipCount (tt :: st.seenFromVarDecl) rest =
                (st.declarations.length + (if tt.tagIsCss then 1 else 0)) +
                  cssTaggedCount rest := by
              have hraw := htail (handleTaggedTemplate pfx rel lte (some nm) tt
                  { st with seenFromVarDecl := tt :: st.seenFromVarDecl })
                (fun n t hm => by
                  rw [handleTaggedTemplate_seen]
                  exact h4x n t hm)
              rw [handleTaggedTemplate_decl_len, handleTaggedTemplate_seen]
                at hraw
              exact hraw
            rw [skipCount_cons_seen tt rest st.seenFromVarDecl hns, hcnt] at hih
            by_cases hcss : tt.tagIsCss <;> simp [hcss] at hih ⊢ <;> omega

/-- C9: for every analyzed file whose visitor event sequence is a well-formed
traversal (each node visited once, declarators visited before their
initializers, distinct declarators having distinct initializer nodes), the
number of declarations produced equals the number of css-tagged template
nodes, each counted exactly once whether or not it is bound to a variable
declarator. -/
theorem declaration_count_invariant (pfx rel : String) (pr : ParseResult)
    (h1 : TaggedEventsDistinct pr.events)
    (h2 : DeclInitsFollow pr.events)
    (h3 : DeclInitsDistinct pr.events) :
    (analyzeParseResult pfx rel pr).declarations.length =
      cssTaggedCount pr.events := by
  rw [analyzeParseResult_declarations]
  have h := analyze_count_main pfx rel (collectExports pr.staticExports)
    pr.events ⟨[], [], [], []⟩ h1 h2 h3 (fun n tt hm => by simp)
  have h0 : skipCount (AnalyzeState.mk [] [] [] []).seenFromVarDecl pr.events = 0 :=
    skipCount_empty_seen pr.events
  have hz : (AnalyzeState.mk [] [] [] []).declarations.length = 0 := rfl
  omega

/-- Witness for C9: the two-node file `wParse` — a declarator for a css
template followed by that node's own traversal event, then an inline css
template — has exactly two declarations, matching its css-tagged node count.
-/
theorem declaration_count_invariant_witness :
    (analyzeParseResult "css-" "w.ts" wParse).declarations.length =
      cssTaggedCount wParse.events := by
  apply declaration_count_invariant
  · show TaggedEventsDistinct wEvents
    simp only [wEvents, wNodeA, wNodeB]
    refine List.pairwise_cons.mpr ⟨?_, List.pairwise_cons.mpr
      ⟨?_, List.pairwise_cons.mpr ⟨?_, List.Pairwise.nil⟩⟩⟩ <;>
      simp +decide [List.mem_cons]
  · show DeclInitsFollow wEvents
    intro l₁ n tt l₂ he
    simp only [wEvents] at he
    rcases l₁ with _ | ⟨x, _ | ⟨y, _ | ⟨z, l⟩⟩⟩
    · rw [List.nil_append] at he
      injection he with ha hb
      have htt : wNodeA = tt := by
        injection ha with hvd
        injection hvd with hn hi
        injection hi with hi2
        exact VInit.tagged.inj hi2
      rw [← hb, ← htt]
      simp [List.mem_cons]
    · injection he with h1 he2
      injection he2 with h2 he3
      exact VisitEvent.noConfusion h2
    · injection he with h1 he2
      injection he2 with h2 he3
      injection he3 with h3 he4
      exact VisitEvent.noConfusion h3
    · injection he with h1 he2
      injection he2 with h2 he3
      injection he3 with h3 he4
      have hlen := congrArg List.length he4
      simp at hlen
      omega
  · show DeclInitsDistinct wEvents
    simp only [wEvents, wNodeA, wNodeB]
    refine List.pairwise_cons.mpr ⟨?_, List.pairwise_cons.mpr
      ⟨?_, List.pairwise_cons.mpr ⟨?_, List.Pairwise.nil⟩⟩⟩ <;>
      simp +decide [List.mem_cons]

/-! ### C10: bound css declarations are always recorded -/

/-- C10: at analysis time, a css-tagged declaration bound to a variable has
its generated class name recorded in `localIdentifiers` — and mirrored into
`exportNameToValueMap` when the variable is a tracked export — with no
condition whatsoever on its interpolations (the statement quantifies over
arbitrary `tt.exprs`, resolvable or not).  Consequently, an interpolation in
another file referencing that exported name resolves to the class name: when
the target file's analysis maps the exported name to a value, `resolveValue`
returns exactly that value. -/
theorem css_declaration_always_recorded (pfx rel : String)
    (lte : List (String × String)) (st : AnalyzeState) (n : String)
    (tt : TTNode) (hcss : tt.tagIsCss = true) (env : Env) (pst : PState)
    (info : ParsedFileInfo)
    (filePath name source imported rid : String)
    (targetInfo : ParsedFileInfo) :
    (mapGet (applyEvent pfx rel lte st
        (.varDecl ⟨some n, some (.tagged tt)⟩)).localIdentifiers n =
      some (generateClassName pfx rel st.declarations.length (some n))) ∧
    (∀ en, mapGet lte n = some en →
      mapGet (applyEvent pfx rel lte st
          (.varDecl ⟨some n, some (.tagged tt)⟩)).exportNameToValueMap en =
        some (generateClassName pfx rel st.declarations.length (some n))) ∧
    (mapGet info.localIdentifiers name = none →
      mapGet info.importedIdentifiers name = some (source, imported) →
      env.resolveId source filePath = some rid →
      mapGet pst.parsedFileInfoCache rid = some targetInfo →
      ∀ v, mapGet targetInfo.exportNameToValueMap imported = some v →
        (resolveValue env pst info filePath name).1 = some v) := by
  have happ : applyEvent pfx rel lte st
      (.varDecl ⟨some n, some (.tagged tt)⟩) =
      handleTaggedTemplate pfx rel lte (some n) tt
        { st with seenFromVarDecl := tt :: st.seenFromVarDecl } := rfl
  have hh : handleTaggedTemplate pfx rel lte (some n) tt
      { st with seenFromVarDecl := tt :: st.seenFromVarDecl } =
      recordIdentifierWithValue lte
        { st with
          seenFromVarDecl := tt :: st.seenFromVarDecl
          declarations := st.declarations ++
            [{ className := generateClassName pfx rel st.declarations.length
                 (some n),
               node := tt, hasInterpolations := !tt.exprs.isEmpty }] }
        n (generateClassName pfx rel st.declarations.length (some n)) := by
    unfold handleTaggedTemplate
    rw [if_neg (by simp [hcss])]
  refine ⟨?_, fun en hen => ?_, fun hl hi hr hc v hv => ?_⟩
  · rw [happ, hh]
    unfold recordIdentifierWithValue
    cases mapGet lte n <;> exact mapGet_set_self _ n _
  · rw [happ, hh]
    unfold recordIdentifierWithValue
    rw [hen]
    exact mapGet_set_self _ en _
  · unfold resolveValue
    simp only [hl, hi, hr]
    have hp : parseFile env pst rid none = (targetInfo, pst) := by
      unfold parseFile
      rw [hc]
    rw [hp, hv]

/-- Witness for C10: a css declaration bound to `a` with an unresolvable
complex interpolation is still recorded (locally and as export `a`), and a
cross-file reference to a cached export resolves to its value. -/
theorem css_declaration_always_recorded_witness :
    (mapGet (applyEvent "css-" "a.ts" [("a", "a")] ⟨[], [], [], []⟩
        (.varDecl ⟨some "a", some (.tagged c10Node)⟩)).localIdentifiers "a" =
      some (generateClassName "css-" "a.ts"
        (AnalyzeState.mk [] [] [] []).declarations.length (some "a"))) ∧
    (mapGet (applyEvent "css-" "a.ts" [("a", "a")] ⟨[], [], [], []⟩
        (.varDecl ⟨some "a", some (.tagged c10Node)⟩)).exportNameToValueMap
        "a" =
      some (generateClassName "css-" "a.ts"
        (AnalyzeState.mk [] [] [] []).declarations.length (some "a"))) ∧
    (resolveValue oneHopEnv c10State importerInfo "main.ts" "red").1 =
      some "css-x" := by
  obtain ⟨h1, h2, h3⟩ := css_declaration_always_recorded "css-" "a.ts"
    [("a", "a")] ⟨[], [], [], []⟩ "a" c10Node rfl oneHopEnv c10State
    importerInfo "main.ts" "red" "./lib" "red" "lib.ts" c10TargetInfo
  exact ⟨h1, h2 "a" rfl, h3 rfl rfl rfl rfl "css-x" rfl⟩

/-! ### Pass structure lemmas (used by C5, C2, C1) -/

lemma addProcessedDeclaration_snd (acc : List CssExtraction × List Replacement)
    (d : Declaration) (c : String) :
    (addProcessedDeclaration acc d c).2 =
      acc.2 ++ [⟨d.node.start, d.node.stop, d.className⟩] := rfl

lemma passTwo_id (env : Env) (info : ParsedFileInfo) (fp : String)
    (ds : List Declaration) :
    ∀ accSt, (∀ d ∈ ds, d.hasInterpolations = false) →
      ds.foldl (passTwoStep env info fp) accSt = accSt := by
  induction ds with
  | nil => intro accSt _; rfl
  | cons d t ih =>
    intro accSt h
    rw [List.foldl_cons]
    have hd : passTwoStep env info fp accSt d = accSt := by
      unfold passTwoStep
      rw [if_pos (by simp [h d (List.mem_cons_self d t)])]
    rw [hd]
    exact ih accSt fun x hx => h x (List.mem_cons_of_mem d hx)

lemma intercalate_singleton (s a : String) : String.intercalate s [a] = a :=
  rfl

lemma drop_take_drop (l : List Char) {a b : Nat} (hab : a ≤ b)
    (hbl : b ≤ l.length) :
    l.drop a = (l.take b).drop a ++ l.drop b := by
  conv_lhs => rw [← List.take_append_drop b l]
  rw [List.drop_append_eq_append_drop, List.length_take,
    Nat.min_eq_left hbl, Nat.sub_eq_zero_of_le hab, List.drop_zero]

/-- C2 counterexample: a file with one resolvable declaration (no
interpolations — but its content trims to the empty string) and one
unresolvable declaration (a complex interpolation) yields a style text with
no rule block at all, not exactly one. -/
theorem partial_failure_single_block_counterexample :
    ((parseFile c2xEnv ⟨[], []⟩ "f.ts" (some c2Code)).1.declarations.map
        (fun d => d.hasInterpolations)) = [false, true] ∧
    (buildContent c2xEnv (parseFile c2xEnv ⟨[], []⟩ "f.ts" (some c2Code)).1
        "f.ts" (parseFile c2xEnv ⟨[], []⟩ "f.ts" (some c2Code)).2 ""
        c2Node2.quasis c2Node2.exprs).1 = none ∧
    (extractCssFromCode c2xEnv ⟨[], []⟩ c2Code "f.ts").1.hasExtractions =
      true ∧
    (extractCssFromCode c2xEnv ⟨[], []⟩ c2Code "f.ts").1.cssContent = "" := by
  have hstepx : (parseFile c2xEnv ⟨[], []⟩ "f.ts"
      (some c2Code)).1.declarations.foldl
      (passTwoStep c2xEnv (parseFile c2xEnv ⟨[], []⟩ "f.ts"
        (some c2Code)).1 "f.ts")
      (passOne (parseFile c2xEnv ⟨[], []⟩ "f.ts"
        (some c2Code)).1.declarations,
       (parseFile c2xEnv ⟨[], []⟩ "f.ts" (some c2Code)).2) =
      (([⟨c2xD1.className, "", 6⟩], [⟨6, 12, c2xD1.className⟩]),
       (parseFile c2xEnv ⟨[], []⟩ "f.ts" (some c2Code)).2) := by decide
  refine ⟨by decide, rfl, ?_, ?_⟩
  · simp only [extractCssFromCode]
    rw [hstepx]
    simp
  · simp only [extractCssFromCode]
    rw [hstepx]
    simp [buildCssBlocks, List.mergeSort_singleton]
    rfl

/-! ### C1: import elision -/

lemma passOneFold_len (ds : List Declaration) :
    ∀ acc : List CssExtraction × List Replacement,
      (ds.foldl
        (fun acc declaration =>
          if declaration.hasInterpolations then acc
          else
            addProcessedDeclaration acc declaration
              (declaration.node.quasis.headD "")) acc).2.length =
        acc.2.length + ds.countP (fun d => !d.hasInterpolations) := by
  induction ds with
  | nil => intro acc; simp
  | cons d t ih =>
    intro acc
    rw [List.foldl_cons]
    by_cases hi : d.hasInterpolations = true
    · rw [if_pos hi, ih]
      have hc : (d :: t).countP (fun x => !x.hasInterpolations) =
          t.countP (fun x => !x.hasInterpolations) := by
        simp [List.countP_cons, hi]
      omega
    · have hif : d.hasInterpolations = false := by
        revert hi; cases d.hasInterpolations <;> simp
      rw [if_neg (by rw [hif]; simp), ih]
      have hsnd : (addProcessedDeclaration acc d
          (d.node.quasis.headD "")).2.length = acc.2.length + 1 := by
        rw [addProcessedDeclaration_snd]; simp
      have hc : (d :: t).countP (fun x => !x.hasInterpolations) =
          t.countP (fun x => !x.hasInterpolations) + 1 := by
        simp [List.countP_cons, hif]
      omega

lemma length_countP_split (ds : List Declaration) :
    ds.length = ds.countP (fun d => !d.hasInterpolations) +
      ds.countP (fun d => d.hasInterpolations) := by
  induction ds with
  | nil => rfl
  | cons d t ih =>
    by_cases hi : d.hasInterpolations = true
    · have h1 : (d :: t).countP (fun x => !x.hasInterpolations) =
          t.countP (fun x => !x.hasInterpolations) := by
        simp [List.countP_cons, hi]
      have h2 : (d :: t).countP (fun x => x.hasInterpolations) =
          t.countP (fun x => x.hasInterpolations) + 1 := by
        simp [List.countP_cons, hi]
      simp only [List.length_cons]
      omega
    · have hif : d.hasInterpolations = false := by
        revert hi; cases d.hasInterpolations <;> simp
      have h1 : (d :: t).countP (fun x => !x.hasInterpolations) =
          t.countP (fun x => !x.hasInterpolations) + 1 := by
        simp [List.countP_cons, hif]
      have h2 : (d :: t).countP (fun x => x.hasInterpolations) =
          t.countP (fun x => x.hasInterpolations) := by
        simp [List.countP_cons, hif]
      simp only [List.length_cons]
      omega

lemma passTwoFold_le (env : Env) (info : ParsedFileInfo) (fp : String)
    (ds : List Declaration) :
    ∀ (acc : List CssExtraction × List Replacement) (st : PState),
      (ds.foldl (passTwoStep env info fp) (acc, st)).1.2.length ≤
        acc.2.length + ds.countP (fun d => d.hasInterpolations) := by
  induction ds with
  | nil => intro acc st; simp
  | cons d t ih =>
    intro acc st
    rw [List.foldl_cons]
    by_cases hi : d.hasInterpolations = true
    · have hc : (d :: t).countP (fun x => x.hasInterpolations) =
          t.countP (fun x => x.hasInterpolations) + 1 := by
        simp [List.countP_cons, hi]
      rcases hbc : buildContent env info fp st "" d.node.quasis d.node.exprs
        with ⟨o, st2⟩
      cases o with
      | some c =>
        have hstep : passTwoStep env info fp (acc, st) d =
            (addProcessedDeclaration acc d c, st2) := by
          unfold passTwoStep
          rw [if_neg (by rw [hi]; simp), hbc]
        rw [hstep]
        have h2 := ih (addProcessedDeclaration acc d c) st2
        have hsnd : (addProcessedDeclaration acc d c).2.length =
            acc.2.length + 1 := by
          rw [addProcessedDeclaration_snd]; simp
        omega
      | none =>
        have hstep : passTwoStep env info fp (acc, st) d = (acc, st2) := by
          unfold passTwoStep
          rw [if_neg (by rw [hi]; simp), hbc]
        rw [hstep]
        have h2 := ih acc st2
        omega
    · have hif : d.hasInterpolations = false := by
        revert hi; cases d.hasInterpolations <;> simp
      have hc : (d :: t).countP (fun x => x.hasInterpolations) =
          t.countP (fun x => x.hasInterpolations) := by
        simp [List.countP_cons, hif]
      have hstep : passTwoStep env info fp (acc, st) d = (acc, st) := by
        unfold passTwoStep
        rw [if_pos (by rw [hif]; rfl)]
      rw [hstep]
      have h2 := ih acc st
      omega

lemma passTwoFold_len_iff (env : Env) (info : ParsedFileInfo) (fp : String)
    (ds : List Declaration) :
    ∀ (acc : List CssExtraction × List Replacement) (st : PState),
      ((ds.foldl (passTwoStep env info fp) (acc, st)).1.2.length =
        acc.2.length + ds.countP (fun d => d.hasInterpolations)) ↔
      allResolvedFrom env info fp st ds = true := by
  induction ds with
  | nil => intro acc st; simp [allResolvedFrom]
  | cons d t ih =>
    intro acc st
    rw [List.foldl_cons]
    by_cases hi : d.hasInterpolations = true
    · have hc : (d :: t).countP (fun x => x.hasInterpolations) =
          t.countP (fun x => x.hasInterpolations) + 1 := by
        simp [List.countP_cons, hi]
      rcases hbc : buildContent env info fp st "" d.node.quasis d.node.exprs
        with ⟨o, st2⟩
      cases o with
      | some c =>
        have hstep : passTwoStep env info fp (acc, st) d =
            (addProcessedDeclaration acc d c, st2) := by
          unfold passTwoStep
          rw [if_neg (by rw [hi]; simp), hbc]
        have hAR : allResolvedFrom env info fp st (d :: t) =
            allResolvedFrom env info fp st2 t := by
          simp only [allResolvedFrom]
          rw [hi, if_pos rfl, hbc]
        rw [hstep, hAR, hc]
        have h := ih (addProcessedDeclaration acc d c) st2
        have hsnd : (addProcessedDeclaration acc d c).2.length =
            acc.2.length + 1 := by
          rw [addProcessedDeclaration_snd]; simp
        rw [hsnd] at h
        rw [show acc.2.length + (t.countP (fun x => x.hasInterpolations) + 1) =
          acc.2.length + 1 + t.countP (fun x => x.hasInterpolations) from by
            omega]
        exact h
      | none =>
        have hstep : passTwoStep env info fp (acc, st) d = (acc, st2) := by
          unfold passTwoStep
          rw [if_neg (by rw [hi]; simp), hbc]
        have hAR : allResolvedFrom env info fp st (d :: t) = false := by
          simp only [allResolvedFrom]
          rw [hi, if_pos rfl, hbc]
        rw [hstep, hAR, hc]
        simp only [Bool.false_eq_true, iff_false]
        intro hEq
        have hle := passTwoFold_le env info fp t acc st2
        omega
    · have hif : d.hasInterpolations = false := by
        revert hi; cases d.hasInterpolations <;> simp
      have hc : (d :: t).countP (fun x => x.hasInterpolations) =
          t.countP (fun x => x.hasInterpolations) := by
        simp [List.countP_cons, hif]
      have hstep : passTwoStep env info fp (acc, st) d = (acc, st) := by
        unfold passTwoStep
        rw [if_pos (by rw [hif]; rfl)]
      have hAR : allResolvedFrom env info fp st (d :: t) =
          allResolvedFrom env info fp st t := by
        simp only [allResolvedFrom]
        rw [hif]
        simp
      rw [hstep, hAR, hc]
      exact ih acc st

lemma extractionPasses_len_iff (env : Env) (st : PState) (code : List Char)
    (fp : String) :
    ((extractionPasses env st code fp).1.2.length =
      (parseFile env st fp (some code)).1.declarations.length) ↔
    allResolvedFrom env (parseFile env st fp (some code)).1 fp
      (parseFile env st fp (some code)).2
      (parseFile env st fp (some code)).1.declarations = true := by
  have h := passTwoFold_len_iff env (parseFile env st fp (some code)).1 fp
    (parseFile env st fp (some code)).1.declarations
    (passOne (parseFile env st fp (some code)).1.declarations)
    (parseFile env st fp (some code)).2
  have hPO : (passOne (parseFile env st fp
      (some code)).1.declarations).2.length =
      (parseFile env st fp (some code)).1.declarations.countP
        (fun d => !d.hasInterpolations) := by
    have h2 := passOneFold_len (parseFile env st fp (some code)).1.declarations
      ([], [])
    simpa [passOne] using h2
  rw [hPO] at h
  unfold extractionPasses
  rw [length_countP_split (parseFile env st fp (some code)).1.declarations]
  exact h

lemma extractionPasses_le (env : Env) (st : PState) (code : List Char)
    (fp : String) :
    (extractionPasses env st code fp).1.2.length ≤
      (parseFile env st fp (some code)).1.declarations.length := by
  have h := passTwoFold_le env (parseFile env st fp (some code)).1 fp
    (parseFile env st fp (some code)).1.declarations
    (passOne (parseFile env st fp (some code)).1.declarations)
    (parseFile env st fp (some code)).2
  have hPO : (passOne (parseFile env st fp
      (some code)).1.declarations).2.length =
      (parseFile env st fp (some code)).1.declarations.countP
        (fun d => !d.hasInterpolations) := by
    have h2 := passOneFold_len (parseFile env st fp (some code)).1.declarations
      ([], [])
    simpa [passOne] using h2
  rw [hPO] at h
  unfold extractionPasses
  rw [length_countP_split (parseFile env st fp (some code)).1.declarations]
  exact h

lemma extractCssFromCode_eq (env : Env) (st : PState) (code : List Char)
    (fp : String) :
    extractCssFromCode env st code fp =
      (if (extractionPasses env st code fp).1.2.isEmpty then
        ({ transformedCode := code, hasExtractions := false, cssContent := "",
           hasUnprocessedCssBlocks := false },
         (extractionPasses env st code fp).2)
      else
        ({ transformedCode :=
             applyReplacements code (extractionPasses env st code fp).1.2,
           hasExtractions := true,
           cssContent := String.intercalate "\n\n" (buildCssBlocks
             ((extractionPasses env st code fp).1.1.mergeSort fun a b =>
               decide (a.sourcePosition ≤ b.sourcePosition))),
           hasUnprocessedCssBlocks := decide
             ((parseFile env st fp (some code)).1.declarations.length >
               (extractionPasses env st code fp).1.2.length) },
         (extractionPasses env st code fp).2)) := rfl

lemma extractCss_empty_case (env : Env) (st : PState) (code : List Char)
    (fp : String)
    (h : (extractionPasses env st code fp).1.2.isEmpty = true) :
    extractCssFromCode env st code fp =
      ({ transformedCode := code, hasExtractions := false, cssContent := "",
         hasUnprocessedCssBlocks := false },
       (extractionPasses env st code fp).2) := by
  rw [extractCssFromCode_eq, h]
  simp

lemma extractCss_nonempty_case (env : Env) (st : PState) (code : List Char)
    (fp : String)
    (h : (extractionPasses env st code fp).1.2.isEmpty = false) :
    extractCssFromCode env st code fp =
      ({ transformedCode :=
           applyReplacements code (extractionPasses env st code fp).1.2,
         hasExtractions := true,
         cssContent := String.intercalate "\n\n" (buildCssBlocks
           ((extractionPasses env st code fp).1.1.mergeSort fun a b =>
             decide (a.sourcePosition ≤ b.sourcePosition))),
         hasUnprocessedCssBlocks := decide
           ((parseFile env st fp (some code)).1.declarations.length >
             (extractionPasses env st code fp).1.2.length) },
       (extractionPasses env st code fp).2) := by
  rw [extractCssFromCode_eq, h]
  simp

lemma isEmpty_false_of_length_pos (l : List Replacement) (h : 0 < l.length) :
    l.isEmpty = false := by
  cases l with
  | nil => simp at h
  | cons a as => rfl

/-- C1 counterexample: a file holding the canonical style-function import
but no css-tagged declaration at all — every declaration vacuously resolved,
the import is removable, yet the handler leaves the file untouched (`none`),
so the import is not removed: the right-to-left direction of the claimed
equivalence fails. -/
theorem import_elision_counterexample :
    (parseFile trivialEnv ⟨[], []⟩ (stripQuery "f.ts")
      (some zImportCode)).1.declarations = [] ∧
    allResolvedFrom trivialEnv (parseFile trivialEnv ⟨[], []⟩
        (stripQuery "f.ts") (some zImportCode)).1 (stripQuery "f.ts")
      (parseFile trivialEnv ⟨[], []⟩ (stripQuery "f.ts")
        (some zImportCode)).2
      (parseFile trivialEnv ⟨[], []⟩ (stripQuery "f.ts")
        (some zImportCode)).1.declarations = true ∧
    removeImport zImportCode ≠ zImportCode ∧
    (handler trivialEnv ⟨[], []⟩ zImportCode "f.ts").1 = none := by
  refine ⟨by decide, by decide, by decide, by decide⟩

/-- C1 (amended): for a file that mentions `ecij`, has at least one
css-tagged declaration, and whose rewritten text still carries the canonical
style-function import (stripping it would change the text), the transform
emits the import-stripped rewrite exactly when every declaration of the file
resolved successfully; when at least one declaration is left unresolved the
handler either keeps the import in the rewrite or returns no rewrite at
all. -/
theorem import_elision_iff (env : Env) (st : PState) (code : List Char)
    (id : String)
    (hecij : includesStr "ecij".data code = true)
    (hne : (parseFile env st (stripQuery id) (some code)).1.declarations ≠ [])
    (himp : removeImport (postCss (stripQuery id)
        (extractCssFromCode env st code (stripQuery id))).1 ≠
      (postCss (stripQuery id)
        (extractCssFromCode env st code (stripQuery id))).1) :
    ((handler env st code id).1 =
      some (removeImport (postCss (stripQuery id)
        (extractCssFromCode env st code (stripQuery id))).1)) ↔
    allResolvedFrom env (parseFile env st (stripQuery id) (some code)).1
      (stripQuery id) (parseFile env st (stripQuery id) (some code)).2
      (parseFile env st (stripQuery id) (some code)).1.declarations =
      true := by
  constructor
  · intro hsome
    by_contra hnall
    have hlt : (extractionPasses env st code (stripQuery id)).1.2.length <
        (parseFile env st (stripQuery id)
          (some code)).1.declarations.length :=
      lt_of_le_of_ne (extractionPasses_le env st code (stripQuery id))
        (fun he => hnall
          ((extractionPasses_len_iff env st code (stripQuery id)).mp he))
    cases hE : (extractionPasses env st code (stripQuery id)).1.2.isEmpty with
    | true =>
      have hchar := extractCss_empty_case env st code (stripQuery id) hE
      have hh : (handler env st code id).1 = none := by
        simp only [handler]
        rw [hecij]
        simp only [Bool.not_true, Bool.false_eq_true, if_false]
        rw [hchar]
        simp
      rw [hh] at hsome
      exact Option.noConfusion hsome
    | false =>
      have hchar := extractCss_nonempty_case env st code (stripQuery id) hE
      have hx : (extractCssFromCode env st code
          (stripQuery id)).1.hasExtractions = true := by
        rw [hchar]
      have hu : (extractCssFromCode env st code
          (stripQuery id)).1.hasUnprocessedCssBlocks = true := by
        rw [hchar]
        exact decide_eq_true hlt
      have hh : (handler env st code id).1 =
          some ((postCss (stripQuery id) (extractCssFromCode env st code
            (stripQuery id))).1) := by
        simp only [handler]
        rw [hecij]
        simp only [Bool.not_true, Bool.false_eq_true, if_false]
        rw [hx]
        simp only [Bool.not_true, Bool.false_eq_true, if_false]
        rw [hu]
        simp only [Bool.not_true, Bool.false_eq_true, if_false]
      rw [hh] at hsome
      exact himp (Option.some.inj hsome).symm
  · intro hall
    have hRlen := (extractionPasses_len_iff env st code
      (stripQuery id)).mpr hall
    have hE : (extractionPasses env st code (stripQuery id)).1.2.isEmpty =
        false :=
      isEmpty_false_of_length_pos _
        (by rw [hRlen]; exact List.length_pos.mpr hne)
    have hchar := extractCss_nonempty_case env st code (stripQuery id) hE
    have hx : (extractCssFromCode env st code
        (stripQuery id)).1.hasExtractions = true := by
      rw [hchar]
    have hu : (extractCssFromCode env st code
        (stripQuery id)).1.hasUnprocessedCssBlocks = false := by
      have hngt : ¬((parseFile env st (stripQuery id)
          (some code)).1.declarations.length >
          (extractionPasses env st code (stripQuery id)).1.2.length) := by
        rw [hRlen]
        exact lt_irrefl _
      rw [hchar]
      exact decide_eq_false hngt
    simp only [handler]
    rw [hecij]
    simp only [Bool.not_true, Bool.false_eq_true, if_false]
    rw [hx]
    simp only [Bool.not_true, Bool.false_eq_true, if_false]
    rw [hu]
    simp only [Bool.not_false, if_true]

/-- Witness for the amended C1 on a concrete host: a file with the
canonical import and one resolvable declaration; all declarations resolve
and the handler output is the import-stripped rewrite. -/
theorem import_elision_iff_witness :
    includesStr "ecij".data c1Code = true ∧
    allResolvedFrom c1Env (parseFile c1Env ⟨[], []⟩ (stripQuery "f.ts")
        (some c1Code)).1 (stripQuery "f.ts")
      (parseFile c1Env ⟨[], []⟩ (stripQuery "f.ts") (some c1Code)).2
      (parseFile c1Env ⟨[], []⟩ (stripQuery "f.ts")
        (some c1Code)).1.declarations = true ∧
    (handler c1Env ⟨[], []⟩ c1Code "f.ts").1 =
      some (removeImport (postCss (stripQuery "f.ts")
        (extractCssFromCode c1Env ⟨[], []⟩ c1Code (stripQuery "f.ts"))).1) := by
  have hstepw : extractionPasses c1Env ⟨[], []⟩ c1Code (stripQuery "f.ts") =
      (([⟨c1D1.className, "color: red", 30⟩], [⟨30, 43, c1D1.className⟩]),
       (parseFile c1Env ⟨[], []⟩ (stripQuery "f.ts") (some c1Code)).2) := by
    decide
  have hE : (extractionPasses c1Env ⟨[], []⟩ c1Code
      (stripQuery "f.ts")).1.2.isEmpty = false := by
    rw [hstepw]
    rfl
  have hchar := extractCss_nonempty_case c1Env ⟨[], []⟩ c1Code
    (stripQuery "f.ts") hE
  have htrans : (extractCssFromCode c1Env ⟨[], []⟩ c1Code
      (stripQuery "f.ts")).1.transformedCode =
      spliceOne c1Code ⟨30, 43, c1D1.className⟩ := by
    rw [hchar]
    simp only [hstepw, applyReplacements, List.mergeSort_singleton,
      List.foldl_cons, List.foldl_nil]
  have hcssc : (extractCssFromCode c1Env ⟨[], []⟩ c1Code
      (stripQuery "f.ts")).1.cssContent =
      renderBlock c1D1.className "color: red" := by
    rw [hchar]
    simp only [hstepw, List.mergeSort_singleton, buildCssBlocks,
      List.foldl_cons, List.foldl_nil]
    rw [if_pos (by decide)]
    rw [List.nil_append]
    exact intercalate_singleton _ _
  have hq : (postCss (stripQuery "f.ts") (extractCssFromCode c1Env ⟨[], []⟩
      c1Code (stripQuery "f.ts"))).1 =
      addCssImport (spliceOne c1Code ⟨30, 43, c1D1.className⟩)
        (stripQuery "f.ts" ++ "." ++ hashText (renderBlock c1D1.className
          "color: red") ++ ".css") := by
    simp only [postCss]
    rw [hcssc, htrans, if_pos (by decide)]
  have himp : removeImport (postCss (stripQuery "f.ts")
      (extractCssFromCode c1Env ⟨[], []⟩ c1Code (stripQuery "f.ts"))).1 ≠
      (postCss (stripQuery "f.ts")
        (extractCssFromCode c1Env ⟨[], []⟩ c1Code (stripQuery "f.ts"))).1 := by
    rw [hq]
    decide
  have hall : allResolvedFrom c1Env (parseFile c1Env ⟨[], []⟩
      (stripQuery "f.ts") (some c1Code)).1 (stripQuery "f.ts")
      (parseFile c1Env ⟨[], []⟩ (stripQuery "f.ts") (some c1Code)).2
      (parseFile c1Env ⟨[], []⟩ (stripQuery "f.ts")
        (some c1Code)).1.declarations = true := by decide
  have h := import_elision_iff c1Env ⟨[], []⟩ c1Code "f.ts" (by decide)
    (by intro hh; exact absurd (congrArg List.length hh) (by decide)) himp
  exact ⟨by decide, hall, h.mpr hall⟩

/-! ### Single pass-2 steps, characterized -/

lemma passTwoStep_skip (env : Env) (info : ParsedFileInfo) (fp : String)
    (acc : List CssExtraction × List Replacement) (st : PState)
    (d : Declaration) (hif : d.hasInterpolations = false) :
    passTwoStep env info fp (acc, st) d = (acc, st) := by
  unfold passTwoStep
  rw [if_pos (by rw [hif]; rfl)]

lemma passTwoStep_fail (env : Env) (info : ParsedFileInfo) (fp : String)
    (acc : List CssExtraction × List Replacement) (st st2 : PState)
    (d : Declaration) (hi : d.hasInterpolations = true)
    (hbc : buildContent env info fp st "" d.node.quasis d.node.exprs =
      (none, st2)) :
    passTwoStep env info fp (acc, st) d = (acc, st2) := by
  unfold passTwoStep
  rw [if_neg (by rw [hi]; simp), hbc]

lemma passTwoStep_ok (env : Env) (info : ParsedFileInfo) (fp : String)
    (acc : List CssExtraction × List Replacement) (st st2 : PState)
    (d : Declaration) (c : String) (hi : d.hasInterpolations = true)
    (hbc : buildContent env info fp st "" d.node.quasis d.node.exprs =
      (some c, st2)) :
    passTwoStep env info fp (acc, st) d =
      (addProcessedDeclaration acc d c, st2) := by
  unfold passTwoStep
  rw [if_neg (by rw [hi]; simp), hbc]

lemma extractionPasses_def (env : Env) (st : PState) (code : List Char)
    (fp : String) :
    extractionPasses env st code fp =
      (parseFile env st fp (some code)).1.declarations.foldl
        (passTwoStep env (parseFile env st fp (some code)).1 fp)
        (passOne (parseFile env st fp (some code)).1.declarations,
         (parseFile env st fp (some code)).2) := rfl

/-! ### C2: partial-failure isolation, amended -/

lemma take_split (l : List Char) {a b c : Nat} (hab : a ≤ b) (hbc : b ≤ c)
    (hbl : b ≤ l.length) :
    l.take c = l.take a ++ ((l.take b).drop a) ++ ((l.take c).drop b) := by
  have h1 : (l.take c).drop a =
      ((l.take c).take b).drop a ++ (l.take c).drop b :=
    drop_take_drop (l.take c) hab
      (by rw [List.length_take]; exact Nat.le_min.mpr ⟨hbc, hbl⟩)
  rw [List.take_take, Nat.min_eq_left hbc] at h1
  conv_lhs => rw [← List.take_append_drop a (l.take c)]
  rw [List.take_take, Nat.min_eq_left (le_trans hab hbc), h1]
  simp [List.append_assoc]

/-- C2 (amended): in a file whose declarations are exactly a resolvable
declaration `dR` (with or without interpolations, before or after the other
one) whose resolved content `cR` does not trim to the empty string, and an
unresolvable declaration `dU`, the rewrite replaces exactly dR's byte range
with the quoted class name, dU's original text survives verbatim as a
contiguous slice of the output, the style text is exactly dR's single rule
block, and the file is flagged as still having unprocessed blocks. -/
theorem partial_failure_isolation (env : Env) (st : PState) (code : List Char)
    (fp : String) (dR dU : Declaration) (cR : String)
    (hU : dU.hasInterpolations = true)
    (horder :
      ((parseFile env st fp (some code)).1.declarations = [dR, dU] ∧
        (resolveDecl env (parseFile env st fp (some code)).1 fp
          (parseFile env st fp (some code)).2 dR).1 = some cR ∧
        (resolveDecl env (parseFile env st fp (some code)).1 fp
          (resolveDecl env (parseFile env st fp (some code)).1 fp
            (parseFile env st fp (some code)).2 dR).2 dU).1 = none) ∨
      ((parseFile env st fp (some code)).1.declarations = [dU, dR] ∧
        (resolveDecl env (parseFile env st fp (some code)).1 fp
          (parseFile env st fp (some code)).2 dU).1 = none ∧
        (resolveDecl env (parseFile env st fp (some code)).1 fp
          (resolveDecl env (parseFile env st fp (some code)).1 fp
            (parseFile env st fp (some code)).2 dU).2 dR).1 = some cR))
    (hne : trimStr cR ≠ "")
    (hbounds : (dR.node.stop ≤ dU.node.start ∧
        dU.node.start ≤ dU.node.stop ∧ dU.node.stop ≤ code.length) ∨
      (dU.node.start ≤ dU.node.stop ∧ dU.node.stop ≤ dR.node.start ∧
        dR.node.start ≤ code.length)) :
    (extractCssFromCode env st code fp).1.transformedCode =
      code.take dR.node.start ++ '\'' :: (dR.className.data ++ ['\'']) ++
        code.drop dR.node.stop ∧
    (∃ pre suf, (extractCssFromCode env st code fp).1.transformedCode =
      pre ++ ((code.take dU.node.stop).drop dU.node.start) ++ suf) ∧
    (extractCssFromCode env st code fp).1.cssContent =
      renderBlock dR.className (trimStr cR) ∧
    (extractCssFromCode env st code fp).1.hasUnprocessedCssBlocks = true := by
  have hmain : (parseFile env st fp (some code)).1.declarations.length = 2 ∧
      ∃ stF, extractionPasses env st code fp =
        (([⟨dR.className, trimStr cR, dR.node.start⟩],
          [⟨dR.node.start, dR.node.stop, dR.className⟩]), stF) := by
    rcases horder with ⟨hdecls, hres1, hres2⟩ | ⟨hdecls, hres1, hres2⟩
    · refine ⟨by rw [hdecls]; rfl, ?_⟩
      by_cases hRi : dR.hasInterpolations = true
      · simp only [resolveDecl] at hres1
        rw [hRi, if_pos rfl] at hres1
        rcases hbc1 : buildContent env (parseFile env st fp (some code)).1 fp
            (parseFile env st fp (some code)).2 "" dR.node.quasis
            dR.node.exprs with ⟨o1, st1⟩
        rw [hbc1] at hres1
        have ho1 : o1 = some cR := hres1
        subst ho1
        have hin : (resolveDecl env (parseFile env st fp (some code)).1 fp
            (parseFile env st fp (some code)).2 dR).2 = st1 := by
          simp only [resolveDecl]
          rw [hRi, if_pos rfl, hbc1]
        rw [hin] at hres2
        simp only [resolveDecl] at hres2
        rw [hU, if_pos rfl] at hres2
        rcases hbc2 : buildContent env (parseFile env st fp (some code)).1 fp
            st1 "" dU.node.quasis dU.node.exprs with ⟨o2, st2⟩
        rw [hbc2] at hres2
        have ho2 : o2 = none := hres2
        subst ho2
        have hpo : passOne [dR, dU] = ([], []) := by
          simp [passOne, hRi, hU]
        refine ⟨st2, ?_⟩
        rw [extractionPasses_def, hdecls, hpo, List.foldl_cons,
          passTwoStep_ok _ _ _ _ _ _ _ _ hRi hbc1, List.foldl_cons,
          passTwoStep_fail _ _ _ _ _ _ _ hU hbc2, List.foldl_nil]
        rfl
      · have hRf : dR.hasInterpolations = false := by
          revert hRi; cases dR.hasInterpolations <;> simp
        have hcR : dR.node.quasis.headD "" = cR := by
          simp only [resolveDecl] at hres1
          rw [hRf, if_neg (by simp)] at hres1
          exact Option.some.inj hres1
        have hin : (resolveDecl env (parseFile env st fp (some code)).1 fp
            (parseFile env st fp (some code)).2 dR).2 =
            (parseFile env st fp (some code)).2 := by
          simp only [resolveDecl]
          rw [hRf, if_neg (by simp)]
        rw [hin] at hres2
        simp only [resolveDecl] at hres2
        rw [hU, if_pos rfl] at hres2
        rcases hbc2 : buildContent env (parseFile env st fp (some code)).1 fp
            (parseFile env st fp (some code)).2 "" dU.node.quasis
            dU.node.exprs with ⟨o2, st2⟩
        rw [hbc2] at hres2
        have ho2 : o2 = none := hres2
        subst ho2
        have hpo : passOne [dR, dU] =
            ([⟨dR.className, trimStr (dR.node.quasis.headD ""),
              dR.node.start⟩],
             [⟨dR.node.start, dR.node.stop, dR.className⟩]) := by
          simp [passOne, hRf, hU, addProcessedDeclaration]
        rw [hcR] at hpo
        refine ⟨st2, ?_⟩
        rw [extractionPasses_def, hdecls, hpo, List.foldl_cons,
          passTwoStep_skip _ _ _ _ _ _ hRf, List.foldl_cons,
          passTwoStep_fail _ _ _ _ _ _ _ hU hbc2, List.foldl_nil]
    · refine ⟨by rw [hdecls]; rfl, ?_⟩
      simp only [resolveDecl] at hres1
      rw [hU, if_pos rfl] at hres1
      rcases hbc1 : buildContent env (parseFile env st fp (some code)).1 fp
          (parseFile env st fp (some code)).2 "" dU.node.quasis
          dU.node.exprs with ⟨o1, st1⟩
      rw [hbc1] at hres1
      have ho1 : o1 = none := hres1
      subst ho1
      have hin : (resolveDecl env (parseFile env st fp (some code)).1 fp
          (parseFile env st fp (some code)).2 dU).2 = st1 := by
        simp only [resolveDecl]
        rw [hU, if_pos rfl, hbc1]
      rw [hin] at hres2
      simp only [resolveDecl] at hres2
      by_cases hRi : dR.hasInterpolations = true
      · rw [hRi, if_pos rfl] at hres2
        rcases hbc2 : buildContent env (parseFile env st fp (some code)).1 fp
            st1 "" dR.node.quasis dR.node.exprs with ⟨o2, st2⟩
        rw [hbc2] at hres2
        have ho2 : o2 = some cR := hres2
        subst ho2
        have hpo : passOne [dU, dR] = ([], []) := by
          simp [passOne, hRi, hU]
        refine ⟨st2, ?_⟩
        rw [extractionPasses_def, hdecls, hpo, List.foldl_cons,
          passTwoStep_fail _ _ _ _ _ _ _ hU hbc1, List.foldl_cons,
          passTwoStep_ok _ _ _ _ _ _ _ _ hRi hbc2, List.foldl_nil]
        rfl
      · have hRf : dR.hasInterpolations = false := by
          revert hRi; cases dR.hasInterpolations <;> simp
        rw [hRf, if_neg (by simp)] at hres2
        have hcR : dR.node.quasis.headD "" = cR := Option.some.inj hres2
        have hpo : passOne [dU, dR] =
            ([⟨dR.className, trimStr (dR.node.quasis.headD ""),
              dR.node.start⟩],
             [⟨dR.node.start, dR.node.stop, dR.className⟩]) := by
          simp [passOne, hRf, hU, addProcessedDeclaration]
        rw [hcR] at hpo
        refine ⟨st1, ?_⟩
        rw [extractionPasses_def, hdecls, hpo, List.foldl_cons,
          passTwoStep_fail _ _ _ _ _ _ _ hU hbc1, List.foldl_cons,
          passTwoStep_skip _ _ _ _ _ _ hRf, List.foldl_nil]
  obtain ⟨hlen2, stF, hstep⟩ := hmain
  have hE : (extractionPasses env st code fp).1.2.isEmpty = false := by
    rw [hstep]
    rfl
  have hchar := extractCss_nonempty_case env st code fp hE
  have ht : (extractCssFromCode env st code fp).1.transformedCode =
      code.take dR.node.start ++ '\'' :: (dR.className.data ++ ['\'']) ++
        code.drop dR.node.stop := by
    rw [hchar]
    simp only [hstep, applyReplacements, List.mergeSort_singleton,
      List.foldl_cons, List.foldl_nil]
    rfl
  refine ⟨ht, ?_, ?_, ?_⟩
  · rcases hbounds with ⟨h1, h2, h3⟩ | ⟨h1, h2, h3⟩
    · refine ⟨code.take dR.node.start ++ ('\'' :: (dR.className.data ++
        ['\''])) ++ ((code.take dU.node.start).drop dR.node.stop),
        code.drop dU.node.stop, ?_⟩
      rw [ht, drop_take_drop code h1 (le_trans h2 h3),
        drop_take_drop code h2 h3]
      simp [List.append_assoc]
    · refine ⟨code.take dU.node.start,
        ((code.take dR.node.start).drop dU.node.stop) ++
          ('\'' :: (dR.className.data ++ ['\''])) ++
          code.drop dR.node.stop, ?_⟩
      rw [ht]
      nth_rewrite 1 [take_split code h1 h2 (le_trans h2 h3)]
      simp [List.append_assoc]
  · rw [hchar]
    simp only [hstep, List.mergeSort_singleton, buildCssBlocks,
      List.foldl_cons, List.foldl_nil]
    rw [if_pos hne, List.nil_append]
    exact intercalate_singleton _ _
  · rw [hchar]
    simp only [hstep, hlen2]
    rfl

/-- Witness for the amended C2 on a concrete host: a two-declaration file,
the first resolvable with content `color: red`, the second with a complex
interpolation. -/
theorem partial_failure_isolation_witness :
    trimStr "color: red" ≠ "" ∧
    (extractCssFromCode c2Env ⟨[], []⟩ c2Code "f.ts").1.transformedCode =
      c2Code.take 6 ++ '\'' :: (c2D1.className.data ++ ['\'']) ++
        c2Code.drop 12 ∧
    (extractCssFromCode c2Env ⟨[], []⟩ c2Code "f.ts").1.cssContent =
      renderBlock c2D1.className (trimStr "color: red") ∧
    (extractCssFromCode c2Env ⟨[], []⟩ c2Code
      "f.ts").1.hasUnprocessedCssBlocks = true := by
  have h := partial_failure_isolation c2Env ⟨[], []⟩ c2Code "f.ts" c2D1 c2D2
    "color: red" rfl
    (Or.inl ⟨by decide, by decide, by decide⟩)
    (by decide)
    (Or.inl ⟨by decide, by decide, by decide⟩)
  exact ⟨by decide, h.1, h.2.2.1, h.2.2.2⟩

/-! ### C5: empty-content declarations, over resolved content -/

end Ecij
